import Mathlib

/-!
# Verification of the nutrition-dashboard data-preparation pipeline

Shallow embedding of `src/backend.py` (a pandas-based data pipeline).

Modelling conventions:
* A table (`pandas.DataFrame`) is a list of column names together with a
  list of rows; a row is an association list from column name to `Cell`.
* A `Cell` is either null (pandas `NaN`/`NaT`/`<NA>`), a string, a rational
  number (modelling numeric dtypes; float-precision issues are outside the
  model), a parsed timestamp (an abstract totally ordered tick count), or a
  boolean.
* `pandas.sort_values` with its default sort kind (`quicksort`) guarantees
  only an ascending permutation of the rows with missing values placed last
  (`na_position="last"`); it is *not* stable.  The deduplicator's sort is
  therefore modelled twice: relationally, `isSortValuesOutput` accepts every
  timestamp-ascending permutation (exactly what the code guarantees), and
  the executable model `sortedWeeklyRows` fixes one admissible such output
  (an insertion sort) so that concrete tables can be evaluated.  Properties
  whose truth depends on which admissible output the sort produces are
  settled over the relation, not the executable model.
* Fallible pandas operations (`KeyError` on a missing column,
  `TypeError: cannot safely cast non-equivalent float64 to int64` from
  `.astype("Int64")`) are modelled with `Except String`.
-/

/- The Batteries rational-number operations are `irreducible`, which blocks
`decide` from evaluating concrete tables; restore default reducibility for
this development (proofs still go through the kernel as usual). -/
set_option allowUnsafeReducibility true
attribute [local semireducible] Rat.add Rat.mul Rat.sub Rat.inv Rat.neg Rat.div

/-- Decidable equality for `Except`, used to evaluate the model's fallible
operations on concrete tables. -/
instance exceptDecEq {ε α : Type} [DecidableEq ε] [DecidableEq α] :
    DecidableEq (Except ε α)
  | Except.ok x, Except.ok y =>
    match decEq x y with
    | isTrue h => isTrue (congrArg Except.ok h)
    | isFalse h => isFalse (fun hh => h (Except.ok.inj hh))
  | Except.ok _, Except.error _ => isFalse (fun hh => Except.noConfusion hh)
  | Except.error _, Except.ok _ => isFalse (fun hh => Except.noConfusion hh)
  | Except.error e, Except.error f =>
    match decEq e f with
    | isTrue h => isTrue (congrArg Except.error h)
    | isFalse h => isFalse (fun hh => h (Except.error.inj hh))

/-- A single table cell.  `null` models pandas missing values
(`NaN` / `NaT` / `<NA>`). -/
inductive Cell where
  | null : Cell
  | str : String → Cell
  | num : ℚ → Cell
  | time : ℕ → Cell
  | bool : Bool → Cell
deriving DecidableEq, Repr

/-- A row: association list from column name to cell. -/
abbrev Row := List (String × Cell)

/-- A data frame: column names plus rows. -/
structure DF where
  cols : List String
  rows : List Row
deriving DecidableEq, Repr

theorem pairFst (a b : DF) : (a, b).1 = a := rfl

theorem pairSnd (a b : DF) : (a, b).2 = b := rfl

/-- Read a cell of a row; a missing entry reads as null (pandas returns
`NaN` for a cell that was never set in an otherwise present column). -/
def getCell (r : Row) (c : String) : Cell :=
  match r.lookup c with
  | some v => v
  | none => Cell.null

/-- Overwrite (or append) one cell of a row. -/
def setCell (r : Row) (c : String) (v : Cell) : Row :=
  if (r.lookup c).isSome then
    r.map (fun p => if p.1 = c then (p.1, v) else p)
  else
    r ++ [(c, v)]

/-- Column assignment `df[c] = f(df[c])` for a column already counted in
the schema, or a fresh derived column. -/
def DF.mapCol (df : DF) (c : String) (f : Cell → Cell) : DF :=
  { cols := if c ∈ df.cols then df.cols else df.cols ++ [c],
    rows := df.rows.map (fun r => setCell r c (f (getCell r c))) }

/-- Column assignment `df[c] = vals` from a precomputed list of values
(the list is aligned with the rows). -/
def DF.setColVals (df : DF) (c : String) (vals : List Cell) : DF :=
  { cols := if c ∈ df.cols then df.cols else df.cols ++ [c],
    rows := (df.rows.zip vals).map (fun p => setCell p.1 c p.2) }

/-! ## Python/pandas string primitives

String manipulation is modelled on `String.data` (lists of characters) so
that everything reduces by plain structural recursion. -/

/-- Python `str.strip()` restricted to ASCII whitespace. -/
def pyStripChars (l : List Char) : List Char :=
  (((l.dropWhile Char.isWhitespace).reverse).dropWhile Char.isWhitespace).reverse

/-- Python `str.strip()`. -/
def pyStrip (s : String) : String := ⟨pyStripChars s.data⟩

/-- Python `str.lower()` (ASCII). -/
def pyLower (s : String) : String := ⟨s.data.map Char.toLower⟩

/-- `str.replace("Week", "")`: delete every (non-overlapping, left-to-right)
occurrence of the four characters `Week`. -/
def dropWeekChars : List Char → List Char
  | 'W' :: 'e' :: 'e' :: 'k' :: rest => dropWeekChars rest
  | c :: rest => c :: dropWeekChars rest
  | [] => []

/-- `str.replace("Week", "")` on strings. -/
def dropWeekLabel (s : String) : String := ⟨dropWeekChars s.data⟩

/-- Digit run to a natural number; `none` when empty or non-digit. -/
def digitsVal : List Char → Option ℕ
  | [] => none
  | l => l.foldl (fun acc c => match acc with
      | none => none
      | some n => if c.isDigit then some (n * 10 + (c.toNat - '0'.toNat)) else none)
    (some 0)

/-- Value of a fractional digit run `ds` as `0.ds`. -/
def fracVal (l : List Char) : Option ℚ :=
  match digitsVal l with
  | none => none
  | some n => some ((n : ℚ) / (10 : ℚ) ^ l.length)

/-- Split a character list at the first dot. -/
def splitAtDot : List Char → (List Char × Option (List Char))
  | [] => ([], none)
  | '.' :: rest => ([], some rest)
  | c :: rest =>
    let p := splitAtDot rest
    (c :: p.1, p.2)

/-- Parse an unsigned decimal literal (`3`, `3.5`, `3.`, `.5`). -/
def parseUnsigned (l : List Char) : Option ℚ :=
  match splitAtDot l with
  | (ip, none) => (digitsVal ip).map (fun n => (n : ℚ))
  | ([], some fp) => fracVal fp
  | (ip, some []) => (digitsVal ip).map (fun n => (n : ℚ))
  | (ip, some fp) =>
    match digitsVal ip, fracVal fp with
    | some n, some f => some ((n : ℚ) + f)
    | _, _ => none

/-- Model of `pd.to_numeric(·, errors="coerce")` on a single string:
parse a signed decimal literal, anything else coerces to missing.
(The grammar covers plain decimal literals, which is all the pipeline's
inputs use; exotic spellings such as exponents are out of model.) -/
def parseNumeric (s : String) : Option ℚ :=
  match pyStripChars s.data with
  | '-' :: rest => (parseUnsigned rest).map (fun q => -q)
  | '+' :: rest => parseUnsigned rest
  | l => parseUnsigned l

/-- `str(value)` as pandas `astype(str)` applies it elementwise:
missing values stringify to `"nan"`. -/
def cellToString : Cell → String
  | Cell.null => "nan"
  | Cell.str s => s
  | Cell.num q => toString q
  | Cell.time t => "ts:" ++ toString t
  | Cell.bool b => if b then "True" else "False"

example : parseNumeric "3" = some 3 := by decide
example : parseNumeric " -2.5" = some (-(5/2)) := by decide
example : parseNumeric "TBD" = none := by decide
example : parseNumeric "" = none := by decide
example : pyStrip "  Week 3 " = "Week 3" := by decide
example : dropWeekLabel "Week 3" = " 3" := by decide

/-! ## Sorting infrastructure

`pandas.sort_values` (ascending, `na_position="last"`, with the stable
tie-break the spec stipulates) is modelled by `List.insertionSort` over the
preorder induced by a sort key into a linear order; missing values map to
the top element so they sort last. -/

/-- The sort preorder induced by a key function. -/
def skRel {α B : Type} [LinearOrder B] (sk : α → B) : α → α → Prop :=
  fun a b => sk a ≤ sk b

instance skRel.decidable {α B : Type} [LinearOrder B] (sk : α → B) :
    DecidableRel (skRel sk) :=
  fun a b => inferInstanceAs (Decidable (sk a ≤ sk b))

instance skRel.total {α B : Type} [LinearOrder B] (sk : α → B) :
    IsTotal α (skRel sk) :=
  ⟨fun a b => le_total (sk a) (sk b)⟩

instance skRel.trans {α B : Type} [LinearOrder B] (sk : α → B) :
    IsTrans α (skRel sk) :=
  ⟨fun _ _ _ h h2 => le_trans h h2⟩

/-- `drop_duplicates(subset=key, keep="last")`: keep each row whose key does
not occur again later in the list. -/
def keepLastByKey {α K : Type} [DecidableEq K] (k : α → K) : List α → List α
  | [] => []
  | x :: xs =>
    if xs.any (fun y => decide (k y = k x)) then keepLastByKey k xs
    else x :: keepLastByKey k xs

/-! ## Normalizer (`normalize_common`) -/

/-- Model of `pd.to_datetime(·, errors="coerce")` on one cell.  Timestamps
are abstract ordered ticks; ISO `YYYY-MM-DD` strings are parsed into an
order-preserving encoding, anything unparseable coerces to `NaT` (null). -/
def parseDateChars : List Char → Option ℕ
  | [y1, y2, y3, y4, '-', m1, m2, '-', d1, d2] =>
    if [y1, y2, y3, y4, m1, m2, d1, d2].all Char.isDigit then
      some ((((y1.toNat - '0'.toNat) * 1000 + (y2.toNat - '0'.toNat) * 100 +
        (y3.toNat - '0'.toNat) * 10 + (y4.toNat - '0'.toNat)) * 10000) +
        ((m1.toNat - '0'.toNat) * 10 + (m2.toNat - '0'.toNat)) * 100 +
        ((d1.toNat - '0'.toNat) * 10 + (d2.toNat - '0'.toNat)))
    else none
  | _ => none

/-- `pd.to_datetime(·, errors="coerce")` cellwise. -/
def toDatetime : Cell → Cell
  | Cell.time t => Cell.time t
  | Cell.str s =>
    match parseDateChars s.data with
    | some t => Cell.time t
    | none => Cell.null
  | Cell.num q => if 0 ≤ q ∧ q.den = 1 then Cell.time q.num.toNat else Cell.null
  | _ => Cell.null

/-- `normalize_common`: trim and lower-case the email column, parse the
timestamp column; each step only when the column is present. -/
def normalize_common (df : DF) : DF :=
  let df1 :=
    if "email" ∈ df.cols then
      df.mapCol "email" (fun c => Cell.str (pyLower (pyStrip (cellToString c))))
    else df
  if "timestamp" ∈ df1.cols then df1.mapCol "timestamp" toDatetime else df1

/-! ## Week-number parser (`parse_week_number`)

`pd.to_numeric(s.str.replace("Week","").str.strip(), errors="coerce")`
produces floats (null for unparseable text); the final `.astype("Int64")`
raises `TypeError: cannot safely cast non-equivalent float64 to int64`
when any parsed value is not an integer, so the column operation is
fallible. -/

/-- The string clean-up applied to each week label. -/
def cleanWeekCell (c : Cell) : String :=
  pyStrip (dropWeekLabel (pyStrip (cellToString c)))

/-- Per-cell numeric parse of a week label (pre-`astype`). -/
def parseWeekCellQ (c : Cell) : Option ℚ :=
  parseNumeric (cleanWeekCell c)

/-- `parse_week_number` as a column operation. -/
def parse_week_number (cells : List Cell) : Except String (List Cell) :=
  let parsed := cells.map parseWeekCellQ
  if parsed.all (fun o =>
      match o with
      | some q => decide (q.den = 1)
      | none => true) then
    Except.ok (parsed.map (fun o =>
      match o with
      | some q => Cell.num q
      | none => Cell.null))
  else
    Except.error "TypeError: cannot safely cast non-equivalent float64 to int64"

/-! ## Categorical mapper and numeric casts -/

/-- `ADHERENCE_MAP` as `Series.map`: unmapped values become null. -/
def ADHERENCE_MAP : Cell → Cell
  | Cell.str s =>
    if s = "Most days" then Cell.num 1
    else if s = "Some days" then Cell.num (mkRat 1 2)
    else if s = "Very few days" then Cell.num 0
    else Cell.null
  | _ => Cell.null

/-- `SLEEP_BIN_MAP` as `Series.map`: unmapped values become null. -/
def SLEEP_BIN_MAP : Cell → Cell
  | Cell.str s =>
    if s = "Less than 5" then Cell.num (mkRat 9 2)
    else if s = "5-6" then Cell.num (mkRat 11 2)
    else if s = "6-7" then Cell.num (mkRat 13 2)
    else if s = "7-8" then Cell.num (mkRat 15 2)
    else if s = "8+" then Cell.num (mkRat 17 2)
    else Cell.null
  | _ => Cell.null

/-- `pd.to_numeric(·, errors="coerce")` cellwise (booleans cast to 0/1,
timestamps are out of the pipeline's inputs and modelled by their tick). -/
def toNumericCoerce : Cell → Cell
  | Cell.num q => Cell.num q
  | Cell.str s =>
    match parseNumeric s with
    | some q => Cell.num q
    | none => Cell.null
  | Cell.bool b => Cell.num (if b then 1 else 0)
  | Cell.time t => Cell.num t
  | Cell.null => Cell.null

/-- `cast_numeric`: coerce each listed column that is present. -/
def cast_numeric (df : DF) (cols : List String) : DF :=
  cols.foldl (fun d c => if c ∈ d.cols then d.mapCol c toNumericCoerce else d) df

/-! ## Deduplicator (`dedupe_weekly_keep_latest`) -/

/-- Sort key of a row for `sort_values("timestamp")`: missing/invalid
timestamps sort last (`NaT` is placed last by pandas). -/
def tsKey (r : Row) : WithTop ℕ :=
  match getCell r "timestamp" with
  | Cell.time t => (t : WithTop ℕ)
  | _ => ⊤

/-- The `(email, week_number)` deduplication key. -/
def dedupKey (r : Row) : Cell × Cell :=
  (getCell r "email", getCell r "week_number")

/-- Sort key used for the duplicates report
(`sort_values(["email","week_number","timestamp"])`); its exact order is
irrelevant to every claim, only that some deterministic sort happens. -/
def reportLe (a b : Row) : Prop :=
  cellToString (getCell a "email") < cellToString (getCell b "email") ∨
    (cellToString (getCell a "email") = cellToString (getCell b "email") ∧
      skRel tsKey a b)

instance reportLe.decidable : DecidableRel reportLe :=
  fun a b => inferInstanceAs (Decidable
    (cellToString (getCell a "email") < cellToString (getCell b "email") ∨
      (cellToString (getCell a "email") = cellToString (getCell b "email") ∧
        skRel tsKey a b)))

/-- The executable working row list of the deduplicator:
`wk.sort_values("timestamp")` when the column exists, else the original
order (`sort_index` on the untouched range index).  The insertion sort used
here is *one admissible output* of `sort_values` — the default sort kind
(`quicksort`) is not stable, so the code does not pin down the relative
order of rows with equal timestamps; `isSortValuesOutput` below captures
the full set of admissible outputs. -/
def sortedWeeklyRows (weekly : DF) : List Row :=
  if "timestamp" ∈ weekly.cols then List.insertionSort (skRel tsKey) weekly.rows
  else weekly.rows

/-- What `wk.sort_values("timestamp")` actually guarantees about its output
`s` on input rows `l`: `s` is a permutation of `l`, ascending in the
timestamp key with missing timestamps last (`na_position="last"`).  The
default sort kind (`quicksort`) is not stable, so *every* such permutation
is an admissible output. -/
def isSortValuesOutput (l s : List Row) : Prop :=
  List.Perm l s ∧ List.Sorted (skRel tsKey) s

/-- The deduplicated table computed from a given admissible sort output `s`:
after the sort the code keeps the last occurrence of each
`(email, week_number)` key (`drop_duplicates(..., keep="last")`). -/
def dedupeFromSorted (weekly : DF) (s : List Row) : DF :=
  { cols := weekly.cols, rows := keepLastByKey dedupKey s }

/-- The duplicates report: the projection to the present key/timestamp
columns of every row whose `(email, week_number)` key occurs more than
once, sorted for display. -/
def dupReport (weekly : DF) : DF :=
  let wkRows := sortedWeeklyRows weekly
  let dupRows := wkRows.filter (fun x =>
    2 ≤ wkRows.countP (fun y => decide (dedupKey y = dedupKey x)))
  let dupCols := ["email", "week_number", "timestamp"].filter (fun c => c ∈ weekly.cols)
  { cols := dupCols,
    rows := List.insertionSort reportLe
      (dupRows.map (fun r => dupCols.map (fun c => (c, getCell r c)))) }

/-- `dedupe_weekly_keep_latest`: stable-sort by timestamp, report every row
whose `(email, week_number)` key occurs more than once, then keep the last
occurrence of each key. -/
def dedupe_weekly_keep_latest (weekly : DF) : DF × DF :=
  if "email" ∈ weekly.cols ∧ "week_number" ∈ weekly.cols then
    ({ cols := weekly.cols, rows := keepLastByKey dedupKey (sortedWeeklyRows weekly) },
      dupReport weekly)
  else
    (weekly, { cols := [], rows := [] })

/-! ## Merger / delta engine (`prep_data`) -/

/-- Suffixing of colliding non-key baseline column names in the merge. -/
def renameIntakeCol (weeklyCols : List String) (c : String) : String :=
  if c ∈ weeklyCols then c ++ "_intake" else c

/-- `weekly.merge(intake, on="email", how="left", suffixes=("", "_intake"))`:
every weekly row appears once per matching intake row, or once with null
baseline columns when there is no match. -/
def mergeLeft (weekly intake : DF) : DF :=
  let rightCols := intake.cols.filter (fun c => c ≠ "email")
  { cols := weekly.cols ++ rightCols.map (renameIntakeCol weekly.cols),
    rows := weekly.rows.flatMap (fun r =>
      let hits := intake.rows.filter (fun ri =>
        decide (getCell ri "email" = getCell r "email"))
      if hits.isEmpty then
        [r ++ rightCols.map (fun c => (renameIntakeCol weekly.cols c, Cell.null))]
      else
        hits.map (fun ri =>
          r ++ rightCols.map (fun c => (renameIntakeCol weekly.cols c, getCell ri c)))) }

/-- Pointwise subtraction of two cells (null unless both numeric, as pandas
arithmetic propagates missing values). -/
def cellSub : Cell → Cell → Cell
  | Cell.num a, Cell.num b => Cell.num (a - b)
  | _, _ => Cell.null

/-- One delta column, computed only when both operand columns exist. -/
def addDelta (df : DF) (cw cb tgt : String) : DF :=
  if cw ∈ df.cols ∧ cb ∈ df.cols then
    df.setColVals tgt (df.rows.map (fun r => cellSub (getCell r cw) (getCell r cb)))
  else df

/-- Step (b) of `prep_data`: overwrite the week-number column with its
parsed values. -/
def weeklyStep2 (weekly1 : DF) (wkvals : List Cell) : DF :=
  weekly1.setColVals "week_number" wkvals

/-- Step (c) of `prep_data` on the weekly table: derive the adherence
score when its source column exists. -/
def weeklyStep3 (w : DF) : DF :=
  if "nutrition_adherence_weekly" ∈ w.cols then
    w.setColVals "adherence_score_weekly"
      (w.rows.map (fun r => ADHERENCE_MAP (getCell r "nutrition_adherence_weekly")))
  else w

/-- Step (c) of `prep_data` on the weekly table: derive the numeric sleep
hours when its source column exists. -/
def weeklyStep4 (w : DF) : DF :=
  if "sleep_hours_weekly" ∈ w.cols then
    w.setColVals "sleep_hours_numeric_weekly"
      (w.rows.map (fun r => SLEEP_BIN_MAP (getCell r "sleep_hours_weekly")))
  else w

/-- Step (c) of `prep_data` on the intake table. -/
def intakeStep3 (i : DF) : DF :=
  if "sleep_hours_baseline" ∈ i.cols then
    i.setColVals "sleep_hours_numeric_baseline"
      (i.rows.map (fun r => SLEEP_BIN_MAP (getCell r "sleep_hours_baseline")))
  else i

/-- The intake columns cast to numeric by `prep_data`. -/
def INTAKE_NUMERIC_COLS : List String :=
  ["bodyweight_lbs_baseline", "rhr_bpm_baseline",
   "sleep_quality_baseline", "energy_baseline",
   "stress_baseline", "classes_per_week_baseline",
   "whole_food_days_per_week_baseline", "alcohol_days_per_week_baseline",
   "takeout_per_week_baseline"]

/-- The weekly columns cast to numeric by `prep_data`. -/
def WEEKLY_NUMERIC_COLS : List String :=
  ["bodyweight_lbs_weekly", "rhr_bpm_weekly",
   "energy_weekly", "sleep_quality_weekly",
   "stress_weekly", "alcohol_days_weekly",
   "class_attended_weekly"]

/-- The cleaned weekly table (steps a-d on the weekly side). -/
def weeklyClean (weekly0 : DF) (wkvals : List Cell) : DF :=
  cast_numeric (weeklyStep4 (weeklyStep3 (weeklyStep2 (normalize_common weekly0) wkvals)))
    WEEKLY_NUMERIC_COLS

/-- The cleaned intake table (steps a, c, d on the intake side). -/
def intakeClean (intake0 : DF) : DF :=
  cast_numeric (intakeStep3 (normalize_common intake0)) INTAKE_NUMERIC_COLS

/-- Steps (e)-(f): the left join followed by the three guarded delta
columns. -/
def mergedResult (i w : DF) : DF :=
  addDelta (addDelta (addDelta (mergeLeft w i)
      "bodyweight_lbs_weekly" "bodyweight_lbs_baseline" "delta_bodyweight_lbs")
    "rhr_bpm_weekly" "rhr_bpm_baseline" "delta_rhr_bpm")
    "energy_weekly" "energy_baseline" "delta_energy"

/-- `prep_data`.  The errors model the pandas exceptions: reading
`weekly["week_number"]` raises `KeyError` when the column is absent, the
`astype("Int64")` inside `parse_week_number` raises on non-integral parsed
weeks, and `merge(on="email")` raises `KeyError` when either table lacks
the key column. -/
def prep_data (intake0 weekly0 : DF) : Except String (DF × DF) :=
  if "week_number" ∈ (normalize_common weekly0).cols then
    Except.bind
      (parse_week_number
        ((normalize_common weekly0).rows.map (fun r => getCell r "week_number")))
      (fun wkvals =>
        if "email" ∈ (weeklyClean weekly0 wkvals).cols ∧
            "email" ∈ (intakeClean intake0).cols then
          Except.ok (mergedResult (intakeClean intake0) (weeklyClean weekly0 wkvals),
            weeklyClean weekly0 wkvals)
        else Except.error "KeyError: email")
  else Except.error "KeyError: week_number"

/-! ## Cohort aggregator (`cohort_weekly_summary`) -/

/-- Number of distinct non-null values (`Series.nunique`). -/
def nuniqueCells (cells : List Cell) : ℕ :=
  ((cells.filter (fun c => c ≠ Cell.null)).dedup).length

/-- Null-ignoring arithmetic mean (`Series.mean`): null when no numeric
value is present. -/
def meanCells (cells : List Cell) : Cell :=
  let qs := cells.filterMap (fun c =>
    match c with
    | Cell.num q => some q
    | _ => none)
  match qs with
  | [] => Cell.null
  | _ => Cell.num (qs.sum / (qs.length : ℚ))

/-- Numeric sort key on a cell; non-numeric (in particular null) sorts
last. -/
def cellNumKey (c : Cell) : WithTop ℚ :=
  match c with
  | Cell.num q => (q : WithTop ℚ)
  | _ => ⊤

/-- The stable output schema of the cohort summary. -/
def SUMMARY_COLS : List String :=
  ["week_number", "n_participants", "bodyweight_mean", "rhr_mean",
   "energy_mean", "adherence_mean", "sleep_hours_mean", "stress_mean"]

/-- The columns `cohort_weekly_summary`'s `groupby(...).agg(...)` reads;
pandas raises `KeyError` when any is absent (and the input is non-empty
with a week-number column). -/
def AGG_SOURCE_COLS : List String :=
  ["email", "bodyweight_lbs_weekly", "rhr_bpm_weekly", "energy_weekly",
   "adherence_score_weekly", "sleep_hours_numeric_weekly", "stress_weekly"]

/-- The aggregate row of one week group. -/
def summaryRow (g : List Row) (w : Cell) : Row :=
  [("week_number", w),
   ("n_participants", Cell.num (nuniqueCells (g.map (fun r => getCell r "email")))),
   ("bodyweight_mean", meanCells (g.map (fun r => getCell r "bodyweight_lbs_weekly"))),
   ("rhr_mean", meanCells (g.map (fun r => getCell r "rhr_bpm_weekly"))),
   ("energy_mean", meanCells (g.map (fun r => getCell r "energy_weekly"))),
   ("adherence_mean", meanCells (g.map (fun r => getCell r "adherence_score_weekly"))),
   ("sleep_hours_mean", meanCells (g.map (fun r => getCell r "sleep_hours_numeric_weekly"))),
   ("stress_mean", meanCells (g.map (fun r => getCell r "stress_weekly")))]

/-- The rows with a non-null week number
(`merged.dropna(subset=["week_number"])`). -/
def eligRows (merged : DF) : List Row :=
  merged.rows.filter (fun r => getCell r "week_number" ≠ Cell.null)

/-- The distinct week-number keys, ascending (`groupby` sorts its keys). -/
def summaryWeeks (merged : DF) : List Cell :=
  List.insertionSort (skRel cellNumKey)
    (((eligRows merged).map (fun r => getCell r "week_number")).dedup)

/-- The aggregated summary table: one `summaryRow` per distinct week. -/
def summaryTable (merged : DF) : DF :=
  { cols := SUMMARY_COLS,
    rows := (summaryWeeks merged).map (fun w =>
      summaryRow ((eligRows merged).filter
        (fun r => decide (getCell r "week_number" = w))) w) }

/-- `cohort_weekly_summary`: stable empty shape on empty/week-less input,
otherwise drop null weeks, group by week (keys ascending), aggregate.
The `Except` error models the `KeyError` the `agg` raises when an
aggregation source column is missing. -/
def cohort_weekly_summary (merged : DF) : Except String DF :=
  if merged.rows.isEmpty ∨ "week_number" ∉ merged.cols then
    Except.ok { cols := SUMMARY_COLS, rows := [] }
  else if AGG_SOURCE_COLS.all (fun c => c ∈ merged.cols) then
    Except.ok (summaryTable merged)
  else
    Except.error "KeyError: aggregation column"

/-! ## Summary metrics -/

/-- The per-row sort key on the week-number column. -/
def weekKey (r : Row) : WithTop ℚ :=
  cellNumKey (getCell r "week_number")

/-- The email cell of a row (grouping key of `groupby("email")`). -/
def emailKey (r : Row) : Cell :=
  getCell r "email"

/-- What one latest-row contributes to the total:
`|delta|` when the bodyweight delta is negative, else `0`. -/
def lossContribution (r : Row) : ℚ :=
  match cellSub (getCell r "bodyweight_lbs_weekly") (getCell r "bodyweight_lbs_baseline") with
  | Cell.num q => if q < 0 then -q else 0
  | _ => 0

/-- `compute_total_weight_lost`: for each email, the last row of the
week-sorted table (`groupby("email").tail(1)`, which drops null-email
groups), then the sum of the absolute negative bodyweight deltas. -/
def compute_total_weight_lost (merged : DF) : ℚ :=
  if merged.rows.isEmpty then 0
  else if ¬ (["email", "week_number", "bodyweight_lbs_weekly",
      "bodyweight_lbs_baseline"].all (fun c => c ∈ merged.cols)) then 0
  else
    let elig := merged.rows.filter (fun r => getCell r "week_number" ≠ Cell.null)
    let sorted := List.insertionSort (skRel weekKey) elig
    let latest := keepLastByKey emailKey
      (sorted.filter (fun r => emailKey r ≠ Cell.null))
    (latest.map lossContribution).sum

/-- Python `int()` on a rational: truncation toward zero. -/
def ratTrunc (q : ℚ) : ℤ := q.num.tdiv q.den

/-- `current_week`: `int(max)` of the non-null numeric week numbers, none
when there are none. -/
def current_week (merged : DF) : Option ℤ :=
  if merged.rows.isEmpty ∨ "week_number" ∉ merged.cols then none
  else
    let weeks := merged.rows.filterMap (fun r =>
      match toNumericCoerce (getCell r "week_number") with
      | Cell.num q => some q
      | _ => none)
    match weeks with
    | [] => none
    | w :: ws => some (ratTrunc (ws.foldl max w))

/-! ## Action-list rule engine (`coaching_action_list`) -/

/-- Rule A: the adherence category stringifies and strips to exactly
`"Very few days"`. -/
def ruleAdherence (r : Row) : Bool :=
  decide (pyStrip (cellToString (getCell r "nutrition_adherence_weekly")) = "Very few days")

/-- Rule B: stress present, numeric and `≥ 8`, and sleep quality present,
numeric and `≤ 4` (comparisons against missing values are false in
pandas). -/
def ruleStressSleep (r : Row) : Bool :=
  (match getCell r "stress_weekly" with
    | Cell.num q => decide (8 ≤ q)
    | _ => false) &&
  (match getCell r "sleep_quality_weekly" with
    | Cell.num q => decide (q ≤ 4)
    | _ => false)

/-- Sort key for `sort_values("stress_weekly", ascending=False)`:
missing stress sorts last even in the descending sort. -/
def stressKey (r : Row) : WithBot ℚ :=
  match getCell r "stress_weekly" with
  | Cell.num q => (q : WithBot ℚ)
  | _ => ⊥

/-- The descending stress order (`⊥` = missing sorts last). -/
def stressDescRel (a b : Row) : Prop :=
  stressKey b ≤ stressKey a

instance stressDescRel.decidable : DecidableRel stressDescRel :=
  fun a b => inferInstanceAs (Decidable (stressKey b ≤ stressKey a))

/-- String sort key for `sorted(...)` over emails. -/
def cellStrKey (c : Cell) : String := cellToString c

/-- The current-week rows (`merged[merged["week_number"] == wk]`; a missing
or non-numeric week compares unequal). -/
def thisWeekRows (merged : DF) (wk : ℤ) : List Row :=
  merged.rows.filter (fun r =>
    match getCell r "week_number" with
    | Cell.num q => decide (q = (wk : ℚ))
    | _ => false)

/-- `set(this_week["email"].dropna())` (empty when the column is absent). -/
def submittedEmails (merged : DF) (wk : ℤ) : List Cell :=
  if "email" ∈ merged.cols then
    ((thisWeekRows merged wk).map (fun r => getCell r "email")).filter
      (fun c => c ≠ Cell.null)
  else []

/-- `set(intake["email"].dropna())` (empty when the column is absent). -/
def intakeEmails (intake : DF) : List Cell :=
  if "email" ∈ intake.cols then
    (intake.rows.map (fun r => getCell r "email")).filter (fun c => c ≠ Cell.null)
  else []

/-- `sorted(list(all_emails - submitted_emails))` as a one-column table. -/
def missingDF (intake merged : DF) (wk : ℤ) : DF :=
  { cols := ["email"],
    rows := (List.insertionSort (skRel cellStrKey)
      (((intakeEmails intake).filter
        (fun c => ¬ c ∈ submittedEmails merged wk)).dedup)).map
      (fun c => [("email", c)]) }

/-- The boolean OR of the two at-risk rules, each guarded by the presence
of its source columns. -/
def rowRiskFlag (merged : DF) (r : Row) : Bool :=
  (if "nutrition_adherence_weekly" ∈ merged.cols then ruleAdherence r else false) ||
  (if "stress_weekly" ∈ merged.cols ∧ "sleep_quality_weekly" ∈ merged.cols
    then ruleStressSleep r else false)

/-- The current-week rows with the computed `risk_flag` column. -/
def flaggedRows (merged : DF) (wk : ℤ) : List Row :=
  (thisWeekRows merged wk).map
    (fun r => setCell r "risk_flag" (Cell.bool (rowRiskFlag merged r)))

/-- The rows kept by the boolean mask `at_risk[at_risk["risk_flag"]]`. -/
def keptRiskRows (merged : DF) (wk : ℤ) : List Row :=
  (flaggedRows merged wk).filter (fun r => getCell r "risk_flag" = Cell.bool true)

/-- The at-risk table's column list (`risk_flag` appended). -/
def atRiskCols (merged : DF) : List String :=
  if "risk_flag" ∈ merged.cols then merged.cols else merged.cols ++ ["risk_flag"]

/-- The at-risk table: flagged current-week rows, sorted by stress
descending when the stress column exists. -/
def atRiskDF (merged : DF) (wk : ℤ) : DF :=
  { cols := atRiskCols merged,
    rows := if "stress_weekly" ∈ atRiskCols merged then
        List.insertionSort stressDescRel (keptRiskRows merged wk)
      else keptRiskRows merged wk }

/-- `coaching_action_list`: the missing-checkin table and the at-risk
table for the current week. -/
def coaching_action_list (intake merged : DF) : DF × DF :=
  match current_week merged with
  | none => ({ cols := ["email"], rows := [] }, { cols := [], rows := [] })
  | some wk => (missingDF intake merged wk, atRiskDF merged wk)

/-! ## Generic lemmas: stable sort, keep-last deduplication

These relate the model's `sort_values` + `drop_duplicates(keep="last")`
composition to the specification-level description "the last-in-original-
order row among those achieving the group's maximum key". -/

section SortLemmas

variable {α K B : Type} [DecidableEq K] [LinearOrder B]

theorem orderedInsert_of_forall_rel (sk : α → B) (a : α) (M : List α)
    (h : ∀ c ∈ M, skRel sk a c) :
    M.orderedInsert (skRel sk) a = a :: M := by
  cases M with
  | nil => rfl
  | cons b l => exact List.orderedInsert_of_le _ _ (h b (List.mem_cons_self b l))

theorem filter_orderedInsert (sk : α → B) (p : α → Bool) (a : α) (L : List α)
    (hL : List.Sorted (skRel sk) L) :
    (L.orderedInsert (skRel sk) a).filter p =
      if p a then (L.filter p).orderedInsert (skRel sk) a else L.filter p := by
  induction L with
  | nil => cases hpa : p a <;> simp [List.orderedInsert, List.filter, hpa]
  | cons b l ih =>
    by_cases hab : skRel sk a b
    · rw [List.orderedInsert_of_le _ _ hab]
      cases hpa : p a
      · simp [List.filter, hpa]
      · have hall : ∀ c ∈ (b :: l).filter p, skRel sk a c := by
          intro c hc
          have hc2 := (List.mem_filter.mp hc).1
          rcases List.mem_cons.mp hc2 with rfl | hc3
          · exact hab
          · exact le_trans hab (List.rel_of_sorted_cons hL c hc3)
        rw [if_pos rfl, orderedInsert_of_forall_rel sk a _ hall]
        simp [List.filter, hpa]
    · have hl : List.Sorted (skRel sk) l := hL.of_cons
      have hstep : (b :: l).orderedInsert (skRel sk) a =
          b :: l.orderedInsert (skRel sk) a := by
        simp [List.orderedInsert, hab]
      rw [hstep]
      cases hpa : p a <;> cases hpb : p b <;>
        simp [List.filter, hpa, hpb, ih hl, List.orderedInsert, hab]

theorem filter_insertionSort (sk : α → B) (p : α → Bool) (l : List α) :
    (l.insertionSort (skRel sk)).filter p = (l.filter p).insertionSort (skRel sk) := by
  induction l with
  | nil => rfl
  | cons x xs ih =>
    have hs : List.Sorted (skRel sk) (xs.insertionSort (skRel sk)) :=
      List.sorted_insertionSort _ xs
    simp only [List.insertionSort]
    rw [filter_orderedInsert sk p x _ hs, ih]
    cases hpx : p x <;> simp [List.filter, hpx]

end SortLemmas

section MaxLemmas

variable {α K B : Type} [DecidableEq K] [LinearOrder B]

/-- Maximum of the sort keys of a list (`⊥` for the empty list). -/
def maxSk (sk : α → B) : List α → WithBot B
  | [] => ⊥
  | x :: xs => max ((sk x : WithBot B)) (maxSk sk xs)

theorem le_maxSk (sk : α → B) {x : α} {l : List α} (hx : x ∈ l) :
    (sk x : WithBot B) ≤ maxSk sk l := by
  induction l with
  | nil => cases hx
  | cons y ys ih =>
    rcases List.mem_cons.mp hx with rfl | hx2
    · exact le_max_left _ _
    · exact le_trans (ih hx2) (le_max_right _ _)

theorem maxSk_le (sk : α → B) {l : List α} {c : WithBot B}
    (h : ∀ x ∈ l, (sk x : WithBot B) ≤ c) : maxSk sk l ≤ c := by
  induction l with
  | nil => exact bot_le
  | cons y ys ih =>
    exact max_le (h y (List.mem_cons_self y ys))
      (ih (fun x hx => h x (List.mem_cons_of_mem y hx)))

theorem maxSk_achieved (sk : α → B) {l : List α} (hne : l ≠ []) :
    ∃ x ∈ l, (sk x : WithBot B) = maxSk sk l := by
  induction l with
  | nil => exact absurd rfl hne
  | cons y ys ih =>
    cases ys with
    | nil =>
      refine ⟨y, List.mem_cons_self y [], ?_⟩
      simp [maxSk]
    | cons z zs =>
      obtain ⟨x, hx, hmax⟩ := ih (List.cons_ne_nil z zs)
      by_cases hle : maxSk sk (z :: zs) ≤ (sk y : WithBot B)
      · exact ⟨y, List.mem_cons_self _ _, (max_eq_left hle).symm⟩
      · refine ⟨x, List.mem_cons_of_mem y hx, ?_⟩
        have h2 : (sk y : WithBot B) ≤ maxSk sk (z :: zs) := le_of_not_le hle
        rw [hmax]
        show maxSk sk (z :: zs) = maxSk sk (y :: z :: zs)
        rw [show maxSk sk (y :: z :: zs) =
          max ((sk y : WithBot B)) (maxSk sk (z :: zs)) from rfl, max_eq_right h2]

theorem exists_rel_iff_le_maxSk (sk : α → B) (a : α) (l : List α) :
    (∃ b ∈ l, skRel sk a b) ↔ (sk a : WithBot B) ≤ maxSk sk l := by
  constructor
  · rintro ⟨b, hb, hab⟩
    exact le_trans (WithBot.coe_le_coe.mpr hab) (le_maxSk sk hb)
  · intro h
    cases l with
    | nil => exact absurd h (by simp [maxSk])
    | cons y ys =>
      obtain ⟨x, hx, hmax⟩ := maxSk_achieved sk (List.cons_ne_nil y ys)
      refine ⟨x, hx, ?_⟩
      exact WithBot.coe_le_coe.mp (by rw [hmax]; exact h)

theorem getLast?_orderedInsert (sk : α → B) (a : α) (L : List α) :
    (L.orderedInsert (skRel sk) a).getLast? =
      if ∃ b ∈ L, skRel sk a b then L.getLast? else some a := by
  induction L with
  | nil => simp
  | cons b l ih =>
    by_cases hab : skRel sk a b
    · rw [List.orderedInsert_of_le _ _ hab,
        if_pos ⟨b, List.mem_cons_self b l, hab⟩, List.getLast?_cons_cons]
    · have hstep : (b :: l).orderedInsert (skRel sk) a =
          b :: l.orderedInsert (skRel sk) a := by
        simp [List.orderedInsert, hab]
      have hne : l.orderedInsert (skRel sk) a ≠ [] := by
        have := List.orderedInsert_length (skRel sk) l a
        intro hnil
        rw [hnil] at this
        simp at this
      rw [hstep]
      obtain ⟨c, m, hcm⟩ : ∃ c m, l.orderedInsert (skRel sk) a = c :: m := by
        cases hoi : l.orderedInsert (skRel sk) a with
        | nil => exact absurd hoi hne
        | cons c m => exact ⟨c, m, rfl⟩
      rw [hcm, List.getLast?_cons_cons, ← hcm, ih]
      by_cases hex : ∃ x ∈ l, skRel sk a x
      · obtain ⟨x, hx, hrel⟩ := hex
        rw [if_pos ⟨x, hx, hrel⟩, if_pos ⟨x, List.mem_cons_of_mem b hx, hrel⟩]
        cases l with
        | nil => cases hx
        | cons z zs => rw [List.getLast?_cons_cons]
      · rw [if_neg hex, if_neg ?hno]
        case hno =>
          rintro ⟨x, hx, hrel⟩
          rcases List.mem_cons.mp hx with rfl | hx2
          · exact hab hrel
          · exact hex ⟨x, hx2, hrel⟩

theorem getLast?_insertionSort (sk : α → B) (l : List α) :
    (l.insertionSort (skRel sk)).getLast? =
      (l.filter (fun x => decide ((sk x : WithBot B) = maxSk sk l))).getLast? := by
  induction l with
  | nil => rfl
  | cons x xs ih =>
    simp only [List.insertionSort]
    rw [getLast?_orderedInsert]
    by_cases hle : (sk x : WithBot B) ≤ maxSk sk xs
    · have hex : ∃ b ∈ xs.insertionSort (skRel sk), skRel sk x b := by
        obtain ⟨b, hb, hrel⟩ := (exists_rel_iff_le_maxSk sk x xs).mpr hle
        exact ⟨b, (List.mem_insertionSort _).mpr hb, hrel⟩
      rw [if_pos hex, ih]
      have hmax : maxSk sk (x :: xs) = maxSk sk xs := max_eq_right hle
      rw [hmax]
      have hxs_ne : xs ≠ [] := by
        intro hnil
        rw [hnil] at hle
        exact absurd hle (by simp [maxSk])
      by_cases heq : (sk x : WithBot B) = maxSk sk xs
      · have hfe : xs.filter (fun y => decide ((sk y : WithBot B) = maxSk sk xs)) ≠ [] := by
          obtain ⟨w, hw, hwm⟩ := maxSk_achieved sk hxs_ne
          intro hnil
          have : w ∈ xs.filter (fun y => decide ((sk y : WithBot B) = maxSk sk xs)) :=
            List.mem_filter.mpr ⟨hw, decide_eq_true hwm⟩
          rw [hnil] at this
          cases this
        rw [List.filter_cons_of_pos (by exact decide_eq_true heq)]
        obtain ⟨c, m, hcm⟩ : ∃ c m,
            xs.filter (fun y => decide ((sk y : WithBot B) = maxSk sk xs)) = c :: m := by
          cases hf : xs.filter (fun y => decide ((sk y : WithBot B) = maxSk sk xs)) with
          | nil => exact absurd hf hfe
          | cons c m => exact ⟨c, m, rfl⟩
        rw [hcm, List.getLast?_cons_cons]
      · rw [List.filter_cons_of_neg (by simp [heq])]
    · have hnex : ¬ ∃ b ∈ xs.insertionSort (skRel sk), skRel sk x b := by
        rintro ⟨b, hb, hrel⟩
        exact hle ((exists_rel_iff_le_maxSk sk x xs).mp
          ⟨b, (List.mem_insertionSort _).mp hb, hrel⟩)
      rw [if_neg hnex]
      have hxlt : maxSk sk xs ≤ (sk x : WithBot B) := le_of_not_le hle
      have hmax : maxSk sk (x :: xs) = (sk x : WithBot B) := max_eq_left hxlt
      rw [hmax, List.filter_cons_of_pos (by exact decide_eq_true rfl)]
      have hfxs : xs.filter (fun y => decide ((sk y : WithBot B) = (sk x : WithBot B))) = [] := by
        rw [List.filter_eq_nil_iff]
        intro y hy
        simp only [decide_eq_true_eq]
        intro heq
        have hle2 := le_maxSk sk hy
        rw [heq] at hle2
        exact hle hle2
      rw [hfxs]
      rfl

end MaxLemmas

section KeepLastLemmas

variable {α K B : Type} [DecidableEq K] [LinearOrder B]

theorem keepLastByKey_sublist (k : α → K) (l : List α) :
    List.Sublist (keepLastByKey k l) l := by
  induction l with
  | nil => exact List.Sublist.refl []
  | cons x xs ih =>
    by_cases hd : xs.any (fun y => decide (k y = k x))
    · rw [keepLastByKey, if_pos hd]
      exact ih.cons x
    · rw [keepLastByKey, if_neg hd]
      exact ih.cons₂ x

theorem filter_keepLastByKey (k : α → K) (c : K) (l : List α) :
    (keepLastByKey k l).filter (fun x => decide (k x = c)) =
      ((l.filter (fun x => decide (k x = c))).getLast?).toList := by
  induction l with
  | nil => rfl
  | cons x xs ih =>
    by_cases hx : k x = c
    · by_cases hd : xs.any (fun y => decide (k y = k x))
      · rw [keepLastByKey, if_pos hd, ih,
          List.filter_cons_of_pos (by exact decide_eq_true hx)]
        obtain ⟨y, hy, hky⟩ := List.any_eq_true.mp hd
        have hyc : k y = c := (of_decide_eq_true hky).trans hx
        have hfne : xs.filter (fun z => decide (k z = c)) ≠ [] := by
          intro hnil
          have hmem : y ∈ xs.filter (fun z => decide (k z = c)) :=
            List.mem_filter.mpr ⟨hy, decide_eq_true hyc⟩
          rw [hnil] at hmem
          cases hmem
        obtain ⟨a, m, ham⟩ : ∃ a m, xs.filter (fun z => decide (k z = c)) = a :: m := by
          cases hf : xs.filter (fun z => decide (k z = c)) with
          | nil => exact absurd hf hfne
          | cons a m => exact ⟨a, m, rfl⟩
        rw [ham, List.getLast?_cons_cons]
      · rw [keepLastByKey, if_neg hd,
          List.filter_cons_of_pos (by exact decide_eq_true hx),
          List.filter_cons_of_pos (by exact decide_eq_true hx)]
        have hnone : ∀ y ∈ xs, ¬ (k y = c) := by
          intro y hy hkc
          apply (fun hh => hd hh)
          exact List.any_eq_true.mpr ⟨y, hy, decide_eq_true (hkc.trans hx.symm)⟩
        have hfxs : xs.filter (fun z => decide (k z = c)) = [] := by
          rw [List.filter_eq_nil_iff]
          intro y hy
          simp only [decide_eq_true_eq]
          exact hnone y hy
        have hkeep : (keepLastByKey k xs).filter (fun z => decide (k z = c)) = [] := by
          rw [ih, hfxs]
          rfl
        rw [hkeep, hfxs]
        rfl
    · have hfcons : ∀ m : List α, (x :: m).filter (fun z => decide (k z = c)) =
          m.filter (fun z => decide (k z = c)) :=
        fun m => List.filter_cons_of_neg (by simp [hx])
      by_cases hd : xs.any (fun y => decide (k y = k x))
      · rw [keepLastByKey, if_pos hd, ih, hfcons]
      · rw [keepLastByKey, if_neg hd, hfcons, ih, hfcons]

theorem keepLastByKey_pairwise_ne (k : α → K) (l : List α) :
    (keepLastByKey k l).Pairwise (fun a b => k a ≠ k b) := by
  induction l with
  | nil => exact List.Pairwise.nil
  | cons x xs ih =>
    by_cases hd : xs.any (fun y => decide (k y = k x))
    · rw [keepLastByKey, if_pos hd]
      exact ih
    · rw [keepLastByKey, if_neg hd]
      refine List.Pairwise.cons ?_ ih
      intro y hy hk
      apply (fun hh => hd hh)
      have hyxs : y ∈ xs := (keepLastByKey_sublist k xs).mem hy
      exact List.any_eq_true.mpr ⟨y, hyxs, decide_eq_true hk.symm⟩

theorem keepLastByKey_of_pairwise_ne (k : α → K) (l : List α)
    (h : l.Pairwise (fun a b => k a ≠ k b)) :
    keepLastByKey k l = l := by
  induction l with
  | nil => rfl
  | cons x xs ih =>
    have hd : xs.any (fun y => decide (k y = k x)) = false := by
      rw [List.any_eq_false]
      intro y hy
      simp only [decide_eq_true_eq]
      exact fun hk => (List.rel_of_pairwise_cons h hy) hk.symm
    rw [keepLastByKey, if_neg (by simp [hd]), ih h.of_cons]

theorem countP_eq_one_of_pairwise_ne (k : α → K) (l : List α)
    (h : l.Pairwise (fun a b => k a ≠ k b)) :
    ∀ x ∈ l, l.countP (fun y => decide (k y = k x)) = 1 := by
  induction l with
  | nil => intro x hx; cases hx
  | cons z m ih =>
    intro x hx
    rcases List.mem_cons.mp hx with rfl | hx2
    · rw [List.countP_cons_of_pos _ _ (by exact decide_eq_true rfl)]
      have hzero : m.countP (fun y => decide (k y = k x)) = 0 := by
        rw [List.countP_eq_zero]
        intro y hy
        simp only [decide_eq_true_eq]
        exact fun hk => (List.rel_of_pairwise_cons h hy) hk.symm
      rw [hzero]
    · rw [List.countP_cons_of_neg _ _ ?hkz]
      case hkz =>
        simp only [decide_eq_true_eq]
        exact fun hk => (List.rel_of_pairwise_cons h hx2) hk
      exact ih h.of_cons x hx2

theorem sorted_keepLastByKey (k : α → K) (r : α → α → Prop) (l : List α)
    (h : List.Sorted r l) : List.Sorted r (keepLastByKey k l) :=
  List.Pairwise.sublist (keepLastByKey_sublist k l) h

end KeepLastLemmas

section SortOutputLemmas

variable {α B : Type} [LinearOrder B]

theorem maxSk_perm (sk : α → B) {l l' : List α} (h : List.Perm l l') :
    maxSk sk l = maxSk sk l' :=
  le_antisymm
    (maxSk_le sk (fun _ hx => le_maxSk sk (h.mem_iff.mp hx)))
    (maxSk_le sk (fun _ hx => le_maxSk sk (h.mem_iff.mpr hx)))

theorem getLast?_sorted_max (sk : α → B) :
    ∀ l : List α, List.Sorted (skRel sk) l → l ≠ [] →
      ∃ r, l.getLast? = some r ∧ r ∈ l ∧ ((sk r : WithBot B) = maxSk sk l) := by
  intro l
  induction l with
  | nil => intro _ hne; exact absurd rfl hne
  | cons y ys ih =>
    intro hsort _
    cases ys with
    | nil =>
      refine ⟨y, rfl, List.mem_cons_self y [], ?_⟩
      simp [maxSk]
    | cons z zs =>
      obtain ⟨r, hrl, hrmem, hrmax⟩ := ih hsort.of_cons (List.cons_ne_nil z zs)
      refine ⟨r, ?_, List.mem_cons_of_mem y hrmem, ?_⟩
      · rw [List.getLast?_cons_cons]
        exact hrl
      · have hyz : skRel sk y z :=
          List.rel_of_sorted_cons hsort z (List.mem_cons_self z zs)
        have hyle : (sk y : WithBot B) ≤ maxSk sk (z :: zs) :=
          le_trans (WithBot.coe_le_coe.mpr hyz) (le_maxSk sk (List.mem_cons_self z zs))
        rw [hrmax]
        show maxSk sk (z :: zs) = max ((sk y : WithBot B)) (maxSk sk (z :: zs))
        rw [max_eq_right hyle]

end SortOutputLemmas

/-! ## Specification-level descriptions of the deduplicator

These definitions follow the words of the specification, to be compared
with the code model. -/

/-- The rows of a duplicate group that carry the group's latest timestamp
(under the sort order, in which a missing timestamp counts as latest
because it is placed last). -/
def latestTsRows (G : List Row) : List Row :=
  G.filter (fun r => decide ((tsKey r : WithBot (WithTop ℕ)) = maxSk tsKey G))

/-- Spec 4.4: the surviving row of a `(email, week_number)` group is the
one appearing last in original row order among the rows sharing the
group's latest timestamp. -/
def specSurvivor (G : List Row) : Option Row := (latestTsRows G).getLast?

theorem dedupe_group_eq_specSurvivor (w : DF)
    (hc : "email" ∈ w.cols ∧ "week_number" ∈ w.cols) (key : Cell × Cell)
    (hts : "timestamp" ∈ w.cols) :
    (dedupe_weekly_keep_latest w).1.rows.filter (fun r => decide (dedupKey r = key)) =
      (specSurvivor (w.rows.filter (fun r => decide (dedupKey r = key)))).toList := by
  have h1 : (dedupe_weekly_keep_latest w).1.rows =
      keepLastByKey dedupKey (sortedWeeklyRows w) := by
    rw [dedupe_weekly_keep_latest, if_pos hc]
  rw [h1, sortedWeeklyRows, if_pos hts,
    filter_keepLastByKey dedupKey key,
    filter_insertionSort tsKey (fun r => decide (dedupKey r = key)) w.rows,
    getLast?_insertionSort tsKey]
  rfl

/-- Whether a cell is a parsed timestamp. -/
def isTimeCell : Cell → Bool
  | Cell.time _ => true
  | _ => false

/-- Whether a cell is a parsed timestamp or missing (the two states of a
normalized timestamp column). -/
def isTimeOrNull : Cell → Bool
  | Cell.time _ => true
  | Cell.null => true
  | _ => false

theorem dedupeFromSorted_group_empty (w : DF) (s : List Row)
    (hs : isSortValuesOutput w.rows s) (key : Cell × Cell)
    (hG : w.rows.filter (fun r => decide (dedupKey r = key)) = []) :
    (dedupeFromSorted w s).rows.filter (fun r => decide (dedupKey r = key)) = [] := by
  have hpf : List.Perm (w.rows.filter (fun r => decide (dedupKey r = key)))
      (s.filter (fun r => decide (dedupKey r = key))) := hs.1.filter _
  rw [hG] at hpf
  have hsf : s.filter (fun r => decide (dedupKey r = key)) = [] := hpf.symm.eq_nil
  show (keepLastByKey dedupKey s).filter (fun r => decide (dedupKey r = key)) = []
  rw [filter_keepLastByKey dedupKey key s, hsf]
  rfl

theorem dedupeFromSorted_group_char (w : DF) (s : List Row)
    (hs : isSortValuesOutput w.rows s) (key : Cell × Cell)
    (hne : w.rows.filter (fun r => decide (dedupKey r = key)) ≠ []) :
    ∃ r, (dedupeFromSorted w s).rows.filter (fun r => decide (dedupKey r = key)) = [r] ∧
      r ∈ w.rows.filter (fun r => decide (dedupKey r = key)) ∧
      ((tsKey r : WithBot (WithTop ℕ)) =
        maxSk tsKey (w.rows.filter (fun r => decide (dedupKey r = key)))) := by
  have hpf : List.Perm (w.rows.filter (fun r => decide (dedupKey r = key)))
      (s.filter (fun r => decide (dedupKey r = key))) := hs.1.filter _
  have hsf : List.Sorted (skRel tsKey) (s.filter (fun r => decide (dedupKey r = key))) :=
    List.Pairwise.sublist (List.filter_sublist s) hs.2
  have hsne : s.filter (fun r => decide (dedupKey r = key)) ≠ [] := by
    intro hnil
    rw [hnil] at hpf
    exact hne hpf.eq_nil
  obtain ⟨r, hrl, hrmem, hrmax⟩ :=
    getLast?_sorted_max tsKey (s.filter (fun r => decide (dedupKey r = key))) hsf hsne
  refine ⟨r, ?_, hpf.mem_iff.mpr hrmem, ?_⟩
  · show (keepLastByKey dedupKey s).filter (fun r => decide (dedupKey r = key)) = [r]
    rw [filter_keepLastByKey dedupKey key s, hrl]
    rfl
  · rw [hrmax]
    exact (maxSk_perm tsKey hpf).symm

theorem dedupeFromSorted_group_unique (w : DF) (s : List Row)
    (hs : isSortValuesOutput w.rows s) (key : Cell × Cell) (u : Row)
    (hu : latestTsRows (w.rows.filter (fun r => decide (dedupKey r = key))) = [u]) :
    (dedupeFromSorted w s).rows.filter (fun r => decide (dedupKey r = key)) = [u] := by
  have humem : u ∈ latestTsRows (w.rows.filter (fun r => decide (dedupKey r = key))) := by
    rw [hu]
    exact List.mem_singleton.mpr rfl
  have huG : u ∈ w.rows.filter (fun r => decide (dedupKey r = key)) :=
    (List.mem_filter.mp humem).1
  have hne : w.rows.filter (fun r => decide (dedupKey r = key)) ≠ [] := by
    intro hnil
    rw [hnil] at huG
    cases huG
  obtain ⟨r, hrfilt, hrG, hrmax⟩ := dedupeFromSorted_group_char w s hs key hne
  have hrin : r ∈ latestTsRows (w.rows.filter (fun r => decide (dedupKey r = key))) :=
    List.mem_filter.mpr ⟨hrG, decide_eq_true hrmax⟩
  rw [hu] at hrin
  rw [hrfilt, List.mem_singleton.mp hrin]

/-- C1 (amended): for every weekly table containing identity, week-number
and timestamp columns, the deduplicator sorts by timestamp and keeps the
last occurrence of each `(email, week_number)` key.  Because the sort kind
(pandas' default `quicksort`) is not stable, the guarantee quantifies over
every admissible sort output `s` (every timestamp-ascending permutation of
the rows, missing timestamps last): keys absent from the table are absent
from the output; every key occurring in the table survives as exactly one
of its own rows, carrying the group's latest timestamp; and when a single
row of the group attains the latest timestamp, that row is the survivor.
The executable model `sortedWeeklyRows` is one admissible sort output, and
the modelled `dedupe_weekly_keep_latest` is the deduplication computed from
it.  The original claim's tie-break clause — last in original row order
among rows sharing the latest timestamp — is not guaranteed by the code;
the counterexample below exhibits an admissible sort output under which a
different tied row survives. -/
theorem C1_dedupe_keeps_latest_amended (w : DF)
    (hcols : "email" ∈ w.cols ∧ "week_number" ∈ w.cols ∧ "timestamp" ∈ w.cols)
    (s : List Row) (hs : isSortValuesOutput w.rows s) (key : Cell × Cell) :
    isSortValuesOutput w.rows (sortedWeeklyRows w) ∧
    (dedupe_weekly_keep_latest w).1 = dedupeFromSorted w (sortedWeeklyRows w) ∧
    (w.rows.filter (fun r => decide (dedupKey r = key)) = [] →
      (dedupeFromSorted w s).rows.filter (fun r => decide (dedupKey r = key)) = []) ∧
    (w.rows.filter (fun r => decide (dedupKey r = key)) ≠ [] →
      ∃ r, (dedupeFromSorted w s).rows.filter (fun r => decide (dedupKey r = key)) = [r] ∧
        r ∈ w.rows.filter (fun r => decide (dedupKey r = key)) ∧
        ((tsKey r : WithBot (WithTop ℕ)) =
          maxSk tsKey (w.rows.filter (fun r => decide (dedupKey r = key))))) ∧
    (∀ u, latestTsRows (w.rows.filter (fun r => decide (dedupKey r = key))) = [u] →
      (dedupeFromSorted w s).rows.filter (fun r => decide (dedupKey r = key)) = [u]) := by
  refine ⟨?_, ?_, ?_, ?_, ?_⟩
  · rw [sortedWeeklyRows, if_pos hcols.2.2]
    exact ⟨(List.perm_insertionSort (skRel tsKey) w.rows).symm,
      List.sorted_insertionSort (skRel tsKey) w.rows⟩
  · have hc : "email" ∈ w.cols ∧ "week_number" ∈ w.cols := ⟨hcols.1, hcols.2.1⟩
    rw [dedupe_weekly_keep_latest, if_pos hc, pairFst]
    rfl
  · exact dedupeFromSorted_group_empty w s hs key
  · exact dedupeFromSorted_group_char w s hs key
  · exact dedupeFromSorted_group_unique w s hs key

/-- One of two submissions tying on the latest timestamp; distinguished
from its twin by the payload column `v`. -/
def tieRowA : Row :=
  [("email", Cell.str "a"), ("week_number", Cell.num 1),
    ("timestamp", Cell.time 10), ("v", Cell.num 1)]

/-- The tied submission appearing last in original row order. -/
def tieRowB : Row :=
  [("email", Cell.str "a"), ("week_number", Cell.num 1),
    ("timestamp", Cell.time 10), ("v", Cell.num 2)]

/-- A weekly table whose single `(email, week_number)` group ties on the
latest timestamp. -/
def wTabTie : DF :=
  { cols := ["email", "week_number", "timestamp", "v"],
    rows := [tieRowA, tieRowB] }

/-- C1 counterexample: the claimed tie-break (the survivor of a group whose
rows share the latest timestamp is the row appearing last in original row
order) is not guaranteed by the code, whose sort kind is not stable.
`[tieRowB, tieRowA]` is an admissible output of sorting `wTabTie`'s rows by
timestamp, and deduplicating from it keeps `tieRowA`; the claim instead
requires the survivor `tieRowB`, which is what a stable sort — such as the
executable model — happens to produce. -/
theorem C1_unstable_tie_counterexample :
    isSortValuesOutput wTabTie.rows [tieRowB, tieRowA] ∧
    (dedupeFromSorted wTabTie [tieRowB, tieRowA]).rows = [tieRowA] ∧
    specSurvivor (wTabTie.rows.filter
      (fun r => decide (dedupKey r = (Cell.str "a", Cell.num 1)))) = some tieRowB ∧
    tieRowA ≠ tieRowB ∧
    (dedupe_weekly_keep_latest wTabTie).1.rows = [tieRowB] :=
  ⟨⟨List.Perm.swap tieRowB tieRowA [], by decide⟩, by decide, by decide, by decide,
    by decide⟩

theorem C1_dedupe_keeps_latest_amended_witness :
    (isSortValuesOutput wTabTie.rows (sortedWeeklyRows wTabTie) ∧
     (dedupe_weekly_keep_latest wTabTie).1 =
       dedupeFromSorted wTabTie (sortedWeeklyRows wTabTie) ∧
     (wTabTie.rows.filter
         (fun r => decide (dedupKey r = (Cell.str "a", Cell.num 1))) = [] →
       (dedupeFromSorted wTabTie [tieRowB, tieRowA]).rows.filter
         (fun r => decide (dedupKey r = (Cell.str "a", Cell.num 1))) = []) ∧
     (wTabTie.rows.filter
         (fun r => decide (dedupKey r = (Cell.str "a", Cell.num 1))) ≠ [] →
       ∃ r, (dedupeFromSorted wTabTie [tieRowB, tieRowA]).rows.filter
           (fun r => decide (dedupKey r = (Cell.str "a", Cell.num 1))) = [r] ∧
         r ∈ wTabTie.rows.filter
           (fun r => decide (dedupKey r = (Cell.str "a", Cell.num 1))) ∧
         ((tsKey r : WithBot (WithTop ℕ)) =
           maxSk tsKey (wTabTie.rows.filter
             (fun r => decide (dedupKey r = (Cell.str "a", Cell.num 1)))))) ∧
     (∀ u, latestTsRows (wTabTie.rows.filter
         (fun r => decide (dedupKey r = (Cell.str "a", Cell.num 1)))) = [u] →
       (dedupeFromSorted wTabTie [tieRowB, tieRowA]).rows.filter
         (fun r => decide (dedupKey r = (Cell.str "a", Cell.num 1))) = [u])) ∧
    (dedupeFromSorted wTabTie [tieRowB, tieRowA]).rows.filter
      (fun r => decide (dedupKey r = (Cell.str "a", Cell.num 1))) = [tieRowA] :=
  ⟨C1_dedupe_keeps_latest_amended wTabTie (by decide) [tieRowB, tieRowA]
      ⟨List.Perm.swap tieRowB tieRowA [], by decide⟩ (Cell.str "a", Cell.num 1),
    by decide⟩

/-- C10: because null timestamps sort after all valid timestamps in the
deduplicator's sort, every `(email, week_number)` group containing at
least one null-timestamp row is survived by a null-timestamp row — not by
the row with the latest valid timestamp. -/
theorem C10_null_timestamp_survivor (w : DF)
    (hcols : "email" ∈ w.cols ∧ "week_number" ∈ w.cols ∧ "timestamp" ∈ w.cols)
    (hkind : ∀ r ∈ w.rows, isTimeOrNull (getCell r "timestamp") = true)
    (key : Cell × Cell)
    (hnull : ∃ r ∈ w.rows.filter (fun r => decide (dedupKey r = key)),
      getCell r "timestamp" = Cell.null) :
    ∃ r, (dedupe_weekly_keep_latest w).1.rows.filter
        (fun r => decide (dedupKey r = key)) = [r] ∧
      getCell r "timestamp" = Cell.null := by
  have heq := dedupe_group_eq_specSurvivor w ⟨hcols.1, hcols.2.1⟩ key hcols.2.2
  obtain ⟨y, hyG, hynull⟩ := hnull
  have hytop : tsKey y = ⊤ := by
    rw [tsKey, hynull]
  have hmax : maxSk tsKey (w.rows.filter (fun r => decide (dedupKey r = key))) =
      (((⊤ : WithTop ℕ) : WithBot (WithTop ℕ))) := by
    apply le_antisymm
    · exact maxSk_le tsKey (fun x _ => WithBot.coe_le_coe.mpr le_top)
    · rw [← hytop]
      exact le_maxSk tsKey hyG
  have hyin : y ∈ latestTsRows (w.rows.filter (fun r => decide (dedupKey r = key))) := by
    refine List.mem_filter.mpr ⟨hyG, decide_eq_true ?_⟩
    rw [hytop, hmax]
  have hne : latestTsRows (w.rows.filter (fun r => decide (dedupKey r = key))) ≠ [] := by
    intro hnil
    rw [hnil] at hyin
    cases hyin
  refine ⟨(latestTsRows (w.rows.filter (fun r => decide (dedupKey r = key)))).getLast hne,
    ?_, ?_⟩
  · rw [heq, specSurvivor, List.getLast?_eq_getLast_of_ne_nil hne]
    rfl
  · have hrin := List.getLast_mem hne
    have hrG := (List.mem_filter.mp hrin).1
    have hrkey : ((tsKey ((latestTsRows (w.rows.filter
        (fun r => decide (dedupKey r = key)))).getLast hne) : WithBot (WithTop ℕ))) =
        maxSk tsKey (w.rows.filter (fun r => decide (dedupKey r = key))) :=
      of_decide_eq_true (List.mem_filter.mp hrin).2
    have hrtop : tsKey ((latestTsRows (w.rows.filter
        (fun r => decide (dedupKey r = key)))).getLast hne) = (⊤ : WithTop ℕ) :=
      WithBot.coe_inj.mp (hrkey.trans hmax)
    have hrw : ((latestTsRows (w.rows.filter
        (fun r => decide (dedupKey r = key)))).getLast hne) ∈ w.rows :=
      (List.mem_filter.mp hrG).1
    have hk := hkind _ hrw
    rw [tsKey] at hrtop
    cases hc : getCell ((latestTsRows (w.rows.filter
        (fun r => decide (dedupKey r = key)))).getLast hne) "timestamp" with
    | null => rfl
    | str s => rw [hc] at hk; cases hk
    | num q => rw [hc] at hk; cases hk
    | time t =>
      rw [hc] at hrtop
      exact absurd hrtop (by simp)
    | bool b => rw [hc] at hk; cases hk

/-- A group where the `ts = 30` row loses to a null-timestamp row. -/
def wTabNull : DF :=
  { cols := ["email", "week_number", "timestamp"],
    rows := [
      [("email", Cell.str "a"), ("week_number", Cell.num 1),
        ("timestamp", Cell.null)],
      [("email", Cell.str "a"), ("week_number", Cell.num 1),
        ("timestamp", Cell.time 30)]] }

theorem C10_null_timestamp_survivor_witness :
    (∃ r, (dedupe_weekly_keep_latest wTabNull).1.rows.filter
        (fun r => decide (dedupKey r = (Cell.str "a", Cell.num 1))) = [r] ∧
      getCell r "timestamp" = Cell.null) ∧
    (dedupe_weekly_keep_latest wTabNull).1.rows =
      [[("email", Cell.str "a"), ("week_number", Cell.num 1),
        ("timestamp", Cell.null)]] :=
  ⟨C10_null_timestamp_survivor wTabNull (by decide) (by decide) _ (by decide), by decide⟩

/-- The deduplicator's output rows: unique keys. -/
theorem dedupe_output_pairwise_ne (w : DF)
    (hc : "email" ∈ w.cols ∧ "week_number" ∈ w.cols) :
    (dedupe_weekly_keep_latest w).1.rows.Pairwise
      (fun a b => dedupKey a ≠ dedupKey b) := by
  have h1 : (dedupe_weekly_keep_latest w).1.rows =
      keepLastByKey dedupKey (sortedWeeklyRows w) := by
    rw [dedupe_weekly_keep_latest, if_pos hc]
  rw [h1]
  exact keepLastByKey_pairwise_ne dedupKey (sortedWeeklyRows w)

/-- C6: applying `dedupe_weekly_keep_latest` to its own deduplicated output
removes no further rows (the table is returned unchanged) and produces an
empty duplicates report. -/
theorem C6_dedupe_idempotent (w : DF) :
    (dedupe_weekly_keep_latest ((dedupe_weekly_keep_latest w).1)).1 =
      (dedupe_weekly_keep_latest w).1 ∧
    (dedupe_weekly_keep_latest ((dedupe_weekly_keep_latest w).1)).2.rows = [] := by
  by_cases hc : "email" ∈ w.cols ∧ "week_number" ∈ w.cols
  · have hd1 : (dedupe_weekly_keep_latest w).1 =
        { cols := w.cols, rows := keepLastByKey dedupKey (sortedWeeklyRows w) } := by
      rw [dedupe_weekly_keep_latest, if_pos hc]
    have hc2 : "email" ∈ (dedupe_weekly_keep_latest w).1.cols ∧
        "week_number" ∈ (dedupe_weekly_keep_latest w).1.cols := by
      rw [hd1]
      exact hc
    have hpair := dedupe_output_pairwise_ne w hc
    have hcolseq : (dedupe_weekly_keep_latest w).1.cols = w.cols := by
      rw [hd1]
    have hsw : sortedWeeklyRows (dedupe_weekly_keep_latest w).1 =
        (dedupe_weekly_keep_latest w).1.rows := by
      rw [sortedWeeklyRows, hcolseq]
      by_cases hts : "timestamp" ∈ w.cols
      · rw [if_pos hts]
        apply List.Sorted.insertionSort_eq
        rw [hd1]
        show List.Sorted _ (keepLastByKey dedupKey (sortedWeeklyRows w))
        apply sorted_keepLastByKey
        rw [sortedWeeklyRows, if_pos hts]
        exact List.sorted_insertionSort _ w.rows
      · rw [if_neg hts]
    have hkeep : keepLastByKey dedupKey (dedupe_weekly_keep_latest w).1.rows =
        (dedupe_weekly_keep_latest w).1.rows :=
      keepLastByKey_of_pairwise_ne dedupKey _ hpair
    have hfilt : (dedupe_weekly_keep_latest w).1.rows.filter
        (fun x => decide (2 ≤ (dedupe_weekly_keep_latest w).1.rows.countP
          (fun y => decide (dedupKey y = dedupKey x)))) = [] := by
      rw [List.filter_eq_nil_iff]
      intro x hx
      rw [decide_eq_true_eq, countP_eq_one_of_pairwise_ne dedupKey _ hpair x hx]
      omega
    constructor
    · rw [show dedupe_weekly_keep_latest ((dedupe_weekly_keep_latest w).1) =
        ({ cols := (dedupe_weekly_keep_latest w).1.cols,
           rows := keepLastByKey dedupKey
             (sortedWeeklyRows (dedupe_weekly_keep_latest w).1) },
         dupReport (dedupe_weekly_keep_latest w).1) from by
          rw [dedupe_weekly_keep_latest, if_pos hc2]]
      rw [hsw, hkeep]
    · rw [show dedupe_weekly_keep_latest ((dedupe_weekly_keep_latest w).1) =
        ({ cols := (dedupe_weekly_keep_latest w).1.cols,
           rows := keepLastByKey dedupKey
             (sortedWeeklyRows (dedupe_weekly_keep_latest w).1) },
         dupReport (dedupe_weekly_keep_latest w).1) from by
          rw [dedupe_weekly_keep_latest, if_pos hc2]]
      show (dupReport (dedupe_weekly_keep_latest w).1).rows = []
      rw [dupReport]
      simp only [hsw, hfilt, List.map_nil]
      rfl
  · have hd1 : dedupe_weekly_keep_latest w = (w, { cols := [], rows := [] }) := by
      rw [dedupe_weekly_keep_latest, if_neg hc]
    constructor
    · show (dedupe_weekly_keep_latest ((dedupe_weekly_keep_latest w).1)).1 =
        (dedupe_weekly_keep_latest w).1
      rw [hd1]
      show (dedupe_weekly_keep_latest w).1 = w
      rw [hd1]
    · rw [hd1]
      show (dedupe_weekly_keep_latest w).2.rows = []
      rw [hd1]

/-- C9 counterexample: `parse_week_number` does not never-raise.  On the
input string `"3.5"` the text parses to the non-integral number `3.5`, and
the trailing `.astype("Int64")` raises
`TypeError: cannot safely cast non-equivalent float64 to int64` instead of
producing a null (or an integer). -/
theorem C9_parse_week_number_raises_on_noninteger :
    parse_week_number [Cell.str "3.5"] =
      Except.error "TypeError: cannot safely cast non-equivalent float64 to int64" := by
  decide

/-- C9 (amended): `parse_week_number` strips the week label and whitespace
and coerces to a nullable integer — `"Week 3"`, `" 3 "` and `"3"` all parse
to integer 3, unparseable input such as `"TBD"` parses to null (distinct
from 0) — and it never raises **except** when the cleaned text parses to a
non-integral number, in which case the `Int64` conversion raises. -/
theorem C9_parse_week_number_amended :
    parse_week_number [Cell.str "Week 3"] = Except.ok [Cell.num 3] ∧
    parse_week_number [Cell.str " 3 "] = Except.ok [Cell.num 3] ∧
    parse_week_number [Cell.str "3"] = Except.ok [Cell.num 3] ∧
    parse_week_number [Cell.str "TBD"] = Except.ok [Cell.null] ∧
    Cell.null ≠ Cell.num 0 ∧
    ∀ s : String,
      match parseWeekCellQ (Cell.str s) with
      | none => parse_week_number [Cell.str s] = Except.ok [Cell.null]
      | some q =>
        if q.den = 1 then parse_week_number [Cell.str s] = Except.ok [Cell.num q]
        else parse_week_number [Cell.str s] =
          Except.error "TypeError: cannot safely cast non-equivalent float64 to int64" := by
  refine ⟨by decide, by decide, by decide, by decide, by decide, ?_⟩
  intro s
  cases hq : parseWeekCellQ (Cell.str s) with
  | none => simp [parse_week_number, hq]
  | some q =>
    by_cases hden : q.den = 1
    · simp [parse_week_number, hq, hden]
    · simp [parse_week_number, hq, hden]

/-! ## Column bookkeeping lemmas -/

theorem mem_mapCol_cols {c : String} (df : DF) (cm : String) (f : Cell → Cell)
    (h : c ∈ df.cols) : c ∈ (df.mapCol cm f).cols := by
  rw [DF.mapCol]
  by_cases hcm : cm ∈ df.cols
  · rw [if_pos hcm]
    exact h
  · rw [if_neg hcm]
    exact List.mem_append_left _ h

theorem mem_setColVals_cols {c : String} (df : DF) (cm : String) (vals : List Cell)
    (h : c ∈ df.cols) : c ∈ (df.setColVals cm vals).cols := by
  rw [DF.setColVals]
  by_cases hcm : cm ∈ df.cols
  · rw [if_pos hcm]
    exact h
  · rw [if_neg hcm]
    exact List.mem_append_left _ h

theorem normalize_common_cols (df : DF) : (normalize_common df).cols = df.cols := by
  rw [normalize_common]
  by_cases he : "email" ∈ df.cols <;> by_cases ht : "timestamp" ∈ df.cols <;>
    simp [DF.mapCol, he, ht]

theorem cast_numeric_cols (cols : List String) (df : DF) :
    (cast_numeric df cols).cols = df.cols := by
  induction cols generalizing df with
  | nil => rfl
  | cons c cs ih =>
    show (cast_numeric (if c ∈ df.cols then df.mapCol c toNumericCoerce else df) cs).cols
      = df.cols
    rw [ih]
    by_cases hc : c ∈ df.cols <;> simp [DF.mapCol, hc]

theorem mem_weeklyStep3_cols {c : String} (w : DF) (h : c ∈ w.cols) :
    c ∈ (weeklyStep3 w).cols := by
  rw [weeklyStep3]
  by_cases hs : "nutrition_adherence_weekly" ∈ w.cols
  · rw [if_pos hs]
    exact mem_setColVals_cols w _ _ h
  · rw [if_neg hs]
    exact h

theorem mem_weeklyStep4_cols {c : String} (w : DF) (h : c ∈ w.cols) :
    c ∈ (weeklyStep4 w).cols := by
  rw [weeklyStep4]
  by_cases hs : "sleep_hours_weekly" ∈ w.cols
  · rw [if_pos hs]
    exact mem_setColVals_cols w _ _ h
  · rw [if_neg hs]
    exact h

theorem mem_intakeStep3_cols {c : String} (i : DF) (h : c ∈ i.cols) :
    c ∈ (intakeStep3 i).cols := by
  rw [intakeStep3]
  by_cases hs : "sleep_hours_baseline" ∈ i.cols
  · rw [if_pos hs]
    exact mem_setColVals_cols i _ _ h
  · rw [if_neg hs]
    exact h

theorem mem_weeklyClean_cols {c : String} (weekly0 : DF) (wkvals : List Cell)
    (h : c ∈ weekly0.cols) : c ∈ (weeklyClean weekly0 wkvals).cols := by
  rw [weeklyClean, cast_numeric_cols]
  apply mem_weeklyStep4_cols
  apply mem_weeklyStep3_cols
  apply mem_setColVals_cols
  rw [normalize_common_cols]
  exact h

theorem mem_intakeClean_cols {c : String} (intake0 : DF) (h : c ∈ intake0.cols) :
    c ∈ (intakeClean intake0).cols := by
  rw [intakeClean, cast_numeric_cols]
  apply mem_intakeStep3_cols
  rw [normalize_common_cols]
  exact h

/-- `parse_week_number` succeeds exactly when no parsed value is a
non-integral number. -/
theorem parse_week_number_ok (cells : List Cell)
    (h : ∀ c ∈ cells, ∀ q, parseWeekCellQ c = some q → q.den = 1) :
    parse_week_number cells = Except.ok ((cells.map parseWeekCellQ).map (fun o =>
      match o with
      | some q => Cell.num q
      | none => Cell.null)) := by
  rw [parse_week_number, if_pos ?hall]
  case hall =>
    rw [List.all_eq_true]
    intro o ho
    obtain ⟨c, hc, rfl⟩ := List.mem_map.mp ho
    cases hq : parseWeekCellQ c with
    | none => rfl
    | some q => exact decide_eq_true (h c hc q hq)

/-! ## Cell bookkeeping lemmas -/

theorem lookup_map_set_ne (r : Row) (ca cb : String) (v : Cell) (h : ca ≠ cb) :
    (r.map (fun p => if p.1 = ca then (p.1, v) else p)).lookup cb = r.lookup cb := by
  induction r with
  | nil => rfl
  | cons p ps ih =>
    by_cases hp : p.1 = ca
    · rw [List.map_cons, if_pos hp]
      show List.lookup cb ((p.1, v) :: ps.map _) = List.lookup cb (p :: ps)
      rw [List.lookup_cons, List.lookup_cons]
      by_cases hb : cb = p.1
      · exfalso
        exact h (hp ▸ hb.symm ▸ rfl)
      · have hbe : (cb == p.1) = false := beq_false_of_ne hb
        rw [hbe]
        simp only [Bool.false_eq_true, if_false]
        exact ih
    · rw [List.map_cons, if_neg hp]
      show List.lookup cb (p :: ps.map _) = List.lookup cb (p :: ps)
      rw [List.lookup_cons, List.lookup_cons]
      by_cases hb : cb = p.1
      · rw [beq_iff_eq.mpr hb]
      · have hbe : (cb == p.1) = false := beq_false_of_ne hb
        rw [hbe]
        simp only [Bool.false_eq_true, if_false]
        exact ih

theorem lookup_append_single_ne (r : Row) (ca cb : String) (v : Cell) (h : ca ≠ cb) :
    (r ++ [(ca, v)]).lookup cb = r.lookup cb := by
  induction r with
  | nil =>
    show List.lookup cb [(ca, v)] = List.lookup cb []
    rw [List.lookup_cons]
    have hbe : (cb == ca) = false := beq_false_of_ne (fun hh => h hh.symm)
    rw [hbe]
  | cons p ps ih =>
    rw [List.cons_append, List.lookup_cons, List.lookup_cons]
    by_cases hb : cb = p.1
    · rw [beq_iff_eq.mpr hb]
    · have hbe : (cb == p.1) = false := beq_false_of_ne hb
      rw [hbe]
      simp only [Bool.false_eq_true, if_false]
      exact ih

theorem getCell_setCell_ne (r : Row) (ca cb : String) (v : Cell) (h : ca ≠ cb) :
    getCell (setCell r ca v) cb = getCell r cb := by
  rw [setCell]
  by_cases hs : (r.lookup ca).isSome
  · rw [if_pos hs]
    unfold getCell
    rw [lookup_map_set_ne r ca cb v h]
  · rw [if_neg hs]
    unfold getCell
    rw [lookup_append_single_ne r ca cb v h]

theorem except_bind_ok {ε α β : Type} (v : α) (f : α → Except ε β) :
    Except.bind (Except.ok v) f = f v := rfl

theorem getCell_mapCol_ne (df : DF) (cm : String) (f : Cell → Cell) (c : String)
    (h : cm ≠ c) :
    (df.mapCol cm f).rows.map (fun r => getCell r c) =
      df.rows.map (fun r => getCell r c) := by
  show (df.rows.map _).map _ = _
  rw [List.map_map]
  apply List.map_congr_left
  intro r _
  exact getCell_setCell_ne r cm c _ h

theorem mem_mapCol_cols_iff {c cm : String} (df : DF) (f : Cell → Cell)
    (hne : c ≠ cm) : (c ∈ (df.mapCol cm f).cols) ↔ c ∈ df.cols := by
  rw [DF.mapCol]
  by_cases hm : cm ∈ df.cols
  · rw [if_pos hm]
  · rw [if_neg hm, List.mem_append]
    simp [hne]

theorem week_cells_normalize (df : DF) :
    (normalize_common df).rows.map (fun r => getCell r "week_number") =
      df.rows.map (fun r => getCell r "week_number") := by
  rw [normalize_common]
  by_cases he : "email" ∈ df.cols
  · rw [if_pos he]
    by_cases ht : "timestamp" ∈ df.cols
    · rw [if_pos ((mem_mapCol_cols_iff df _ (by decide)).mpr ht),
        getCell_mapCol_ne _ "timestamp" _ _ (by decide),
        getCell_mapCol_ne _ "email" _ _ (by decide)]
    · rw [if_neg (fun hh => ht ((mem_mapCol_cols_iff df _ (by decide)).mp hh)),
        getCell_mapCol_ne _ "email" _ _ (by decide)]
  · rw [if_neg he]
    by_cases ht : "timestamp" ∈ df.cols
    · rw [if_pos ht, getCell_mapCol_ne _ "timestamp" _ _ (by decide)]
    · rw [if_neg ht]

/-- C7 counterexample: `prep_data` is not exception-free for all inputs the
validator could let through conceptually — when the weekly table lacks the
week-number column, the unguarded `weekly["week_number"]` read raises
`KeyError` instead of being skipped. -/
theorem C7_prep_data_raises_without_week_column :
    prep_data
      { cols := ["email"], rows := [[("email", Cell.str "a")]] }
      { cols := ["email", "timestamp"],
        rows := [[("email", Cell.str "b"), ("timestamp", Cell.time 1)]] } =
      Except.error "KeyError: week_number" := by
  decide

/-- C7 (amended): the categorical-mapping, numeric-cast and delta steps of
`prep_data` are each skipped without error when their source columns are
absent, and no exception arises from malformed cells except the week-label
texts that parse to non-integral numbers; however `prep_data` does raise
when the weekly table lacks the week-number column (see the
counterexample), so under the presence of the identity and week-number
columns and integral-or-unparseable week labels it returns a result. -/
theorem C7_prep_data_amended (intake weekly : DF)
    (hwk : "week_number" ∈ weekly.cols)
    (hew : "email" ∈ weekly.cols) (hei : "email" ∈ intake.cols)
    (hsafe : ∀ r ∈ weekly.rows, ∀ q,
      parseWeekCellQ (getCell r "week_number") = some q → q.den = 1) :
    ∃ p, prep_data intake weekly = Except.ok p := by
  rw [prep_data, if_pos (by rw [normalize_common_cols]; exact hwk)]
  have hcells : ∀ c ∈ (normalize_common weekly).rows.map
      (fun r => getCell r "week_number"), ∀ q, parseWeekCellQ c = some q → q.den = 1 := by
    rw [week_cells_normalize]
    intro c hc
    obtain ⟨r, hr, rfl⟩ := List.mem_map.mp hc
    exact hsafe r hr
  rw [parse_week_number_ok _ hcells, except_bind_ok,
    if_pos ⟨mem_weeklyClean_cols weekly _ hew, mem_intakeClean_cols intake hei⟩]
  exact ⟨_, rfl⟩

/-- A weekly table missing every optional metric column and containing an
unparseable week label: the amended C7 still applies. -/
def wTabSparse : DF :=
  { cols := ["email", "week_number", "timestamp"],
    rows := [
      [("email", Cell.str "a"), ("week_number", Cell.str "Week 2"),
        ("timestamp", Cell.str "2024-01-08")],
      [("email", Cell.str "b"), ("week_number", Cell.str "TBD"),
        ("timestamp", Cell.null)]] }

/-- The intake table used by several witnesses. -/
def iTab : DF :=
  { cols := ["email", "bodyweight_lbs_baseline"],
    rows := [[("email", Cell.str "a"), ("bodyweight_lbs_baseline", Cell.str "200")]] }

theorem C7_prep_data_amended_witness :
    (∃ p, prep_data iTab wTabSparse = Except.ok p) ∧
    (prep_data iTab wTabSparse).isOk = true :=
  ⟨C7_prep_data_amended iTab wTabSparse (by decide) (by decide) (by decide) (by decide),
    by decide⟩

/-! ## Merge lemmas (C2) -/

theorem getCell_setColVals_ne (df : DF) (cm : String) (vals : List Cell) (c : String)
    (h : cm ≠ c) (hlen : vals.length = df.rows.length) :
    (df.setColVals cm vals).rows.map (fun r => getCell r c) =
      df.rows.map (fun r => getCell r c) := by
  show ((df.rows.zip vals).map _).map _ = _
  rw [List.map_map]
  have h1 : ∀ p ∈ df.rows.zip vals,
      ((fun r => getCell r c) ∘ fun p : Row × Cell => setCell p.1 cm p.2) p =
        ((fun r => getCell r c) ∘ Prod.fst) p :=
    fun p _ => getCell_setCell_ne p.1 cm c p.2 h
  rw [List.map_congr_left h1, ← List.map_map,
    List.map_fst_zip _ _ (Nat.le_of_eq hlen.symm)]

theorem getCell_cast_numeric_ne (cols : List String) (df : DF) (c : String)
    (h : c ∉ cols) :
    (cast_numeric df cols).rows.map (fun r => getCell r c) =
      df.rows.map (fun r => getCell r c) := by
  induction cols generalizing df with
  | nil => rfl
  | cons cm cs ih =>
    have hc : cm ≠ c := fun hh => h (hh ▸ List.mem_cons_self _ _)
    have hcs : c ∉ cs := fun hh => h (List.mem_cons_of_mem _ hh)
    show (cast_numeric (if cm ∈ df.cols then df.mapCol cm toNumericCoerce else df)
      cs).rows.map _ = _
    rw [ih _ hcs]
    by_cases hm : cm ∈ df.cols
    · rw [if_pos hm]
      exact getCell_mapCol_ne df cm _ c hc
    · rw [if_neg hm]

theorem email_cells_intakeClean (i : DF) :
    (intakeClean i).rows.map (fun r => getCell r "email") =
      (normalize_common i).rows.map (fun r => getCell r "email") := by
  rw [intakeClean, getCell_cast_numeric_ne _ _ _ (by decide), intakeStep3]
  by_cases hs : "sleep_hours_baseline" ∈ (normalize_common i).cols
  · rw [if_pos hs, getCell_setColVals_ne _ _ _ _ (by decide) (by rw [List.length_map])]
  · rw [if_neg hs]

theorem filter_key_length_le_one {α K : Type} [DecidableEq K] (k : α → K)
    (L : List α) (h : (L.map k).Nodup) (e : K) :
    (L.filter (fun x => decide (k x = e))).length ≤ 1 := by
  induction L with
  | nil => simp
  | cons x xs ih =>
    rw [List.map_cons, List.nodup_cons] at h
    by_cases hx : k x = e
    · rw [List.filter_cons_of_pos (by exact decide_eq_true hx)]
      have hnil : xs.filter (fun y => decide (k y = e)) = [] := by
        rw [List.filter_eq_nil_iff]
        intro y hy
        simp only [decide_eq_true_eq]
        intro hk
        exact h.1 (by
          rw [show k x = k y from hx.trans hk.symm]
          exact List.mem_map_of_mem k hy)
      rw [hnil]
      simp
    · rw [List.filter_cons_of_neg (by simp [hx])]
      exact ih h.2

/-- Spec 4.6 (e): what one weekly row becomes in the left join when
baseline identities are unique — its unique match's suffixed baseline
cells appended, or all-null baseline cells when unmatched. -/
def joinRowSpec (i : DF) (wcols : List String) (rw : Row) : Row :=
  match i.rows.filter (fun ri => decide (getCell ri "email" = getCell rw "email")) with
  | [] => rw ++ ((i.cols.filter (fun c => c ≠ "email")).map
      (fun c => (renameIntakeCol wcols c, Cell.null)))
  | ri :: _ => rw ++ ((i.cols.filter (fun c => c ≠ "email")).map
      (fun c => (renameIntakeCol wcols c, getCell ri c)))

/-- The left join when baseline identities are pairwise distinct: each
weekly row produces exactly one output row, described by `joinRowSpec`. -/
theorem mergeLeft_rows_of_nodup (w i : DF)
    (h : (i.rows.map (fun r => getCell r "email")).Nodup) :
    (mergeLeft w i).rows = w.rows.map (joinRowSpec i w.cols) := by
  show w.rows.flatMap _ = _
  induction w.rows with
  | nil => rfl
  | cons rw rws ih =>
    rw [List.flatMap_cons, List.map_cons, ih]
    simp only [joinRowSpec]
    cases hits : i.rows.filter
        (fun ri => decide (getCell ri "email" = getCell rw "email")) with
    | nil =>
      dsimp only
      rfl
    | cons ri rest =>
      have hrest : rest = [] := by
        have hlen := filter_key_length_le_one (fun r => getCell r "email") i.rows h
          (getCell rw "email")
        rw [hits] at hlen
        cases rest with
        | nil => rfl
        | cons a b => exact absurd hlen (by simp)
      subst hrest
      dsimp only
      rfl

theorem setColVals_rows_length (df : DF) (cm : String) (vals : List Cell)
    (h : vals.length = df.rows.length) :
    (df.setColVals cm vals).rows.length = df.rows.length := by
  show ((df.rows.zip vals).map _).length = _
  rw [List.length_map, List.length_zip, h, Nat.min_self]

theorem mapCol_rows_length (df : DF) (cm : String) (f : Cell → Cell) :
    (df.mapCol cm f).rows.length = df.rows.length := by
  show (df.rows.map _).length = _
  rw [List.length_map]

theorem normalize_common_rows_length (df : DF) :
    (normalize_common df).rows.length = df.rows.length := by
  rw [normalize_common]
  by_cases he : "email" ∈ df.cols
  · rw [if_pos he]
    by_cases ht : "timestamp" ∈ df.cols
    · rw [if_pos ((mem_mapCol_cols_iff df _ (by decide)).mpr ht),
        mapCol_rows_length, mapCol_rows_length]
    · rw [if_neg (fun hh => ht ((mem_mapCol_cols_iff df _ (by decide)).mp hh)),
        mapCol_rows_length]
  · rw [if_neg he]
    by_cases ht : "timestamp" ∈ df.cols
    · rw [if_pos ht, mapCol_rows_length]
    · rw [if_neg ht]

theorem cast_numeric_rows_length (cols : List String) (df : DF) :
    (cast_numeric df cols).rows.length = df.rows.length := by
  induction cols generalizing df with
  | nil => rfl
  | cons cm cs ih =>
    show (cast_numeric (if cm ∈ df.cols then df.mapCol cm toNumericCoerce else df)
      cs).rows.length = _
    rw [ih]
    by_cases hm : cm ∈ df.cols
    · rw [if_pos hm, mapCol_rows_length]
    · rw [if_neg hm]

theorem weeklyStep3_rows_length (w : DF) :
    (weeklyStep3 w).rows.length = w.rows.length := by
  rw [weeklyStep3]
  by_cases hs : "nutrition_adherence_weekly" ∈ w.cols
  · rw [if_pos hs, setColVals_rows_length _ _ _ (by rw [List.length_map])]
  · rw [if_neg hs]

theorem weeklyStep4_rows_length (w : DF) :
    (weeklyStep4 w).rows.length = w.rows.length := by
  rw [weeklyStep4]
  by_cases hs : "sleep_hours_weekly" ∈ w.cols
  · rw [if_pos hs, setColVals_rows_length _ _ _ (by rw [List.length_map])]
  · rw [if_neg hs]

theorem weeklyClean_rows_length (weekly0 : DF) (wkvals : List Cell)
    (h : wkvals.length = weekly0.rows.length) :
    (weeklyClean weekly0 wkvals).rows.length = weekly0.rows.length := by
  rw [weeklyClean, cast_numeric_rows_length, weeklyStep4_rows_length,
    weeklyStep3_rows_length, weeklyStep2,
    setColVals_rows_length _ _ _ (by rw [h, normalize_common_rows_length]),
    normalize_common_rows_length]

theorem addDelta_rows_length (df : DF) (cw cb tgt : String) :
    (addDelta df cw cb tgt).rows.length = df.rows.length := by
  rw [addDelta]
  by_cases hg : cw ∈ df.cols ∧ cb ∈ df.cols
  · rw [if_pos hg, setColVals_rows_length _ _ _ (by rw [List.length_map])]
  · rw [if_neg hg]

theorem parse_week_number_ok_length (cells : List Cell) (out : List Cell)
    (h : parse_week_number cells = Except.ok out) : out.length = cells.length := by
  rw [parse_week_number] at h
  by_cases hall : (cells.map parseWeekCellQ).all (fun o =>
      match o with
      | some q => decide (q.den = 1)
      | none => true)
  · rw [if_pos hall] at h
    rw [← Except.ok.inj h, List.length_map, List.length_map]
  · rw [if_neg hall] at h
    exact Except.noConfusion h

/-- Inversion of a successful `prep_data` run. -/
theorem prep_data_ok_inv (intake weekly : DF) (p : DF × DF)
    (hok : prep_data intake weekly = Except.ok p) :
    ∃ wkvals, parse_week_number ((normalize_common weekly).rows.map
        (fun r => getCell r "week_number")) = Except.ok wkvals ∧
      wkvals.length = weekly.rows.length ∧
      p = (mergedResult (intakeClean intake) (weeklyClean weekly wkvals),
        weeklyClean weekly wkvals) := by
  rw [prep_data] at hok
  by_cases hwk : "week_number" ∈ (normalize_common weekly).cols
  · rw [if_pos hwk] at hok
    cases hpk : parse_week_number ((normalize_common weekly).rows.map
        (fun r => getCell r "week_number")) with
    | error e =>
      rw [hpk] at hok
      exact Except.noConfusion hok
    | ok wkvals =>
      rw [hpk, except_bind_ok] at hok
      by_cases hg : "email" ∈ (weeklyClean weekly wkvals).cols ∧
          "email" ∈ (intakeClean intake).cols
      · rw [if_pos hg] at hok
        refine ⟨wkvals, rfl, ?_, (Except.ok.inj hok).symm⟩
        rw [parse_week_number_ok_length _ _ hpk, List.length_map,
          normalize_common_rows_length]
      · rw [if_neg hg] at hok
        exact Except.noConfusion hok
  · rw [if_neg hwk] at hok
    exact Except.noConfusion hok

/-- An intake table with a duplicated (already normalized) identity. -/
def iTabDup : DF :=
  { cols := ["email", "bodyweight_lbs_baseline"],
    rows := [
      [("email", Cell.str "a"), ("bodyweight_lbs_baseline", Cell.num 200)],
      [("email", Cell.str "a"), ("bodyweight_lbs_baseline", Cell.num 190)]] }

/-- A weekly table with one matched and one unmatched row. -/
def wTabOne : DF :=
  { cols := ["email", "week_number"],
    rows := [
      [("email", Cell.str "a"), ("week_number", Cell.str "1")],
      [("email", Cell.str "z"), ("week_number", Cell.str "1")]] }

/-- A weekly table with a single row, for the C2 counterexample. -/
def wTabSingle : DF :=
  { cols := ["email", "week_number"],
    rows := [[("email", Cell.str "a"), ("week_number", Cell.str "1")]] }

/-- C2 counterexample: `prep_data` accepts an intake table whose identities
are duplicated, and then one weekly row gives rise to **two** merged rows
(one per matching baseline row), so "each weekly row appears exactly once
in the merged table" fails as a universal statement. -/
theorem C2_duplicate_baseline_counterexample :
    (prep_data iTabDup wTabSingle).map (fun p => p.1.rows.length) = Except.ok 2 ∧
    wTabSingle.rows.length = 1 := by
  decide

/-- C2 (amended): for every pair of tables accepted by `prep_data` whose
normalized baseline identities are pairwise distinct, each row of the
cleaned (post-dedup) weekly table gives rise to exactly one row of the
merged output (so the merged table has exactly one row per input weekly
row), and a weekly row without a baseline match is extended with null
cells for every suffixed baseline-side column. -/
theorem C2_join_completeness_amended (intake weekly : DF) (p : DF × DF)
    (hok : prep_data intake weekly = Except.ok p)
    (hnodup : ((normalize_common intake).rows.map
      (fun r => getCell r "email")).Nodup) :
    p.1.rows.length = weekly.rows.length ∧
    ∃ wkvals,
      p.2 = weeklyClean weekly wkvals ∧
      p.2.rows.length = weekly.rows.length ∧
      (mergeLeft p.2 (intakeClean intake)).rows =
        p.2.rows.map (joinRowSpec (intakeClean intake) p.2.cols) := by
  obtain ⟨wkvals, hpk, hlen, hp⟩ := prep_data_ok_inv intake weekly p hok
  have hnodup2 : ((intakeClean intake).rows.map
      (fun r => getCell r "email")).Nodup := by
    rw [email_cells_intakeClean]
    exact hnodup
  refine ⟨?_, wkvals, ?_, ?_, ?_⟩
  · rw [hp, pairFst, mergedResult, addDelta_rows_length, addDelta_rows_length,
      addDelta_rows_length, mergeLeft_rows_of_nodup _ _ hnodup2, List.length_map]
    exact weeklyClean_rows_length weekly wkvals hlen
  · rw [hp, pairSnd]
  · rw [hp, pairSnd]
    exact weeklyClean_rows_length weekly wkvals hlen
  · rw [hp, pairSnd]
    exact mergeLeft_rows_of_nodup _ _ hnodup2

set_option maxHeartbeats 400000

/-- The concrete result of `prep_data` on the witness tables. -/
def C2p : DF × DF :=
  match prep_data iTab wTabOne with
  | Except.ok p => p
  | Except.error _ => ({ cols := [], rows := [] }, { cols := [], rows := [] })

set_option maxHeartbeats 2000000 in
theorem C2_join_completeness_amended_witness :
    C2p.1.rows.length = wTabOne.rows.length ∧ C2p.1.rows.length = 2 :=
  ⟨(C2_join_completeness_amended iTab wTabOne C2p (by decide) (by decide)).1,
    by decide⟩

/-! ## Summary-metric lemmas (C3) -/

/-- Spec 4.8: the record selected for one identity — the last, in original
row order, among the identity's rows achieving its maximum week number
(unique when the input is deduplicated, in which case it is simply "the
row with the maximum week-number"). -/
def latestWeekRow (G : List Row) : Row :=
  ((G.filter (fun r =>
    decide ((weekKey r : WithBot (WithTop ℚ)) = maxSk weekKey G))).getLast?).getD []

/-- Spec 4.8, restated in the specification's words: exclude rows with a
null week number; for each identity take the record with the maximum
week-number; sum the absolute values of only the negative
weekly-minus-baseline bodyweight deltas; 0 on empty or missing-column
input. -/
def totalWeightLostSpec (merged : DF) : ℚ :=
  if merged.rows.isEmpty then 0
  else if ¬ (["email", "week_number", "bodyweight_lbs_weekly",
      "bodyweight_lbs_baseline"].all (fun c => c ∈ merged.cols)) then 0
  else
    let elig := merged.rows.filter (fun r => getCell r "week_number" ≠ Cell.null)
    let emails := ((elig.map emailKey).filter (fun c => c ≠ Cell.null)).dedup
    (emails.map (fun e => lossContribution (latestWeekRow
      (elig.filter (fun r => decide (emailKey r = e)))))).sum

theorem total_lost_group_char (elig : List Row) (e : Cell) (he : e ≠ Cell.null) :
    (keepLastByKey emailKey ((List.insertionSort (skRel weekKey) elig).filter
        (fun r => decide (emailKey r ≠ Cell.null)))).filter
        (fun x => decide (emailKey x = e)) =
      ((elig.filter (fun r => decide (emailKey r = e))).filter (fun r =>
        decide ((weekKey r : WithBot (WithTop ℚ)) =
          maxSk weekKey (elig.filter (fun r => decide (emailKey r = e)))))).getLast?.toList := by
  rw [filter_keepLastByKey emailKey e, List.filter_filter]
  have hff : (List.insertionSort (skRel weekKey) elig).filter
      (fun a => decide (emailKey a = e) && decide (emailKey a ≠ Cell.null)) =
      (List.insertionSort (skRel weekKey) elig).filter
        (fun a => decide (emailKey a = e)) := by
    apply List.filter_congr
    intro x _
    by_cases hxe : emailKey x = e
    · simp [hxe, he]
    · simp [hxe]
  rw [hff, filter_insertionSort weekKey _ elig, getLast?_insertionSort weekKey]

theorem total_lost_main (elig : List Row) :
    ((keepLastByKey emailKey ((List.insertionSort (skRel weekKey) elig).filter
        (fun r => decide (emailKey r ≠ Cell.null)))).map lossContribution).sum =
      ((((elig.map emailKey).filter (fun c => decide (c ≠ Cell.null))).dedup).map
        (fun e => lossContribution (latestWeekRow (elig.filter
          (fun r => decide (emailKey r = e)))))).sum := by
  set M := (List.insertionSort (skRel weekKey) elig).filter
    (fun r => decide (emailKey r ≠ Cell.null)) with hM
  set L := keepLastByKey emailKey M with hL
  set emails := ((elig.map emailKey).filter (fun c => decide (c ≠ Cell.null))).dedup
    with hemails
  have hLM : ∀ x ∈ L, emailKey x ≠ Cell.null ∧ x ∈ elig := by
    intro x hx
    have hxM : x ∈ M := (keepLastByKey_sublist emailKey M).mem hx
    rw [hM] at hxM
    have h2 := List.mem_filter.mp hxM
    exact ⟨of_decide_eq_true h2.2, (List.mem_insertionSort _).mp h2.1⟩
  have hLpick : ∀ x ∈ L, x = latestWeekRow (elig.filter
      (fun r => decide (emailKey r = emailKey x))) := by
    intro x hx
    have he := (hLM x hx).1
    have hx2 : x ∈ L.filter (fun y => decide (emailKey y = emailKey x)) :=
      List.mem_filter.mpr ⟨hx, decide_eq_true rfl⟩
    rw [hL, total_lost_group_char elig (emailKey x) he] at hx2
    rw [Option.mem_toList] at hx2
    rw [latestWeekRow, Option.mem_def.mp hx2]
    rfl
  have hnodupL : (L.map emailKey).Nodup :=
    List.pairwise_map.mpr (keepLastByKey_pairwise_ne emailKey M)
  have hmemiff : ∀ e, e ∈ L.map emailKey ↔ e ∈ emails := by
    intro e
    constructor
    · intro hmem
      obtain ⟨x, hxL, rfl⟩ := List.mem_map.mp hmem
      obtain ⟨hne, hxe⟩ := hLM x hxL
      rw [hemails, List.mem_dedup]
      exact List.mem_filter.mpr ⟨List.mem_map_of_mem emailKey hxe, decide_eq_true hne⟩
    · intro hmem
      rw [hemails, List.mem_dedup] at hmem
      have h2 := List.mem_filter.mp hmem
      have hne : e ≠ Cell.null := of_decide_eq_true h2.2
      obtain ⟨y, hy, hye⟩ := List.mem_map.mp h2.1
      have hGne : elig.filter (fun r => decide (emailKey r = e)) ≠ [] := by
        intro hnil
        have hymem : y ∈ elig.filter (fun r => decide (emailKey r = e)) :=
          List.mem_filter.mpr ⟨hy, decide_eq_true hye⟩
        rw [hnil] at hymem
        cases hymem
      obtain ⟨w, hw, hwm⟩ := maxSk_achieved weekKey hGne
      have hFne : ((elig.filter (fun r => decide (emailKey r = e))).filter (fun r =>
          decide ((weekKey r : WithBot (WithTop ℚ)) =
            maxSk weekKey (elig.filter (fun r => decide (emailKey r = e)))))) ≠ [] := by
        intro hnil
        have hwmem : w ∈ (elig.filter (fun r => decide (emailKey r = e))).filter (fun r =>
            decide ((weekKey r : WithBot (WithTop ℚ)) =
              maxSk weekKey (elig.filter (fun r => decide (emailKey r = e))))) :=
          List.mem_filter.mpr ⟨hw, decide_eq_true hwm⟩
        rw [hnil] at hwmem
        cases hwmem
      have hsome := List.getLast?_eq_getLast_of_ne_nil hFne
      have hr0 : ((elig.filter (fun r => decide (emailKey r = e))).filter (fun r =>
          decide ((weekKey r : WithBot (WithTop ℚ)) =
            maxSk weekKey (elig.filter (fun r => decide (emailKey r = e)))))).getLast hFne ∈
          L.filter (fun x => decide (emailKey x = e)) := by
        rw [hL, total_lost_group_char elig e hne, hsome]
        exact List.mem_cons_self _ _
      have h3 := List.mem_filter.mp hr0
      exact List.mem_map.mpr ⟨_, h3.1, of_decide_eq_true h3.2⟩
  have hperm : (L.map emailKey).Perm emails :=
    (List.perm_ext_iff_of_nodup hnodupL (List.nodup_dedup _)).mpr hmemiff
  have hLrw : L.map lossContribution = (L.map emailKey).map
      (fun e => lossContribution (latestWeekRow (elig.filter
        (fun r => decide (emailKey r = e))))) := by
    rw [List.map_map]
    apply List.map_congr_left
    intro x hx
    show lossContribution x = lossContribution (latestWeekRow _)
    rw [← hLpick x hx]
  rw [hLrw]
  exact (hperm.map _).sum_eq

/-- C3: `compute_total_weight_lost` equals its specification — for each
identity (null week numbers excluded first) select the row with the
maximum week-number, form the weekly-minus-baseline bodyweight delta, and
sum the absolute values of only the negative deltas; a latest delta of -5
contributes 5, a positive or missing delta contributes 0, and the function
returns 0 on an empty table or when a needed column is missing. -/
theorem C3_compute_total_weight_lost (merged : DF) :
    compute_total_weight_lost merged = totalWeightLostSpec merged ∧
    (merged.rows.isEmpty = true → compute_total_weight_lost merged = 0) ∧
    (¬ ((["email", "week_number", "bodyweight_lbs_weekly",
        "bodyweight_lbs_baseline"].all (fun c => c ∈ merged.cols)) = true) →
      compute_total_weight_lost merged = 0) ∧
    (∀ r : Row, cellSub (getCell r "bodyweight_lbs_weekly")
        (getCell r "bodyweight_lbs_baseline") = Cell.num (-5) →
      lossContribution r = 5) ∧
    (∀ r : Row, ∀ q : ℚ, cellSub (getCell r "bodyweight_lbs_weekly")
        (getCell r "bodyweight_lbs_baseline") = Cell.num q → 0 ≤ q →
      lossContribution r = 0) ∧
    (∀ r : Row, cellSub (getCell r "bodyweight_lbs_weekly")
        (getCell r "bodyweight_lbs_baseline") = Cell.null →
      lossContribution r = 0) := by
  refine ⟨?_, ?_, ?_, ?_, ?_, ?_⟩
  · rw [compute_total_weight_lost, totalWeightLostSpec]
    by_cases hemp : merged.rows.isEmpty
    · rw [if_pos hemp, if_pos hemp]
    · rw [if_neg hemp, if_neg hemp]
      by_cases hall : ¬ ((["email", "week_number", "bodyweight_lbs_weekly",
          "bodyweight_lbs_baseline"].all (fun c => c ∈ merged.cols)) = true)
      · rw [if_pos hall, if_pos hall]
      · rw [if_neg hall, if_neg hall]
        exact total_lost_main _
  · intro h
    rw [compute_total_weight_lost, if_pos h]
  · intro h
    rw [compute_total_weight_lost]
    by_cases hemp : merged.rows.isEmpty
    · rw [if_pos hemp]
    · rw [if_neg hemp, if_pos h]
  · intro r h
    unfold lossContribution
    rw [h]
    norm_num
  · intro r q h hq
    unfold lossContribution
    rw [h]
    show (if q < 0 then -q else 0) = 0
    rw [if_neg (not_lt.mpr hq)]
  · intro r h
    unfold lossContribution
    rw [h]

/-! ## Action-list lemmas (C4, C5) -/

theorem getCell_setCell_self (r : Row) (c : String) (v : Cell) :
    getCell (setCell r c v) c = v := by
  rw [setCell]
  by_cases hs : (r.lookup c).isSome
  · rw [if_pos hs]
    unfold getCell
    induction r with
    | nil => cases hs
    | cons p ps ih =>
      by_cases hp : p.1 = c
      · rw [List.map_cons, if_pos hp]
        show (match List.lookup c ((p.1, v) :: ps.map _) with
          | some v => v
          | none => Cell.null) = v
        rw [List.lookup_cons, beq_iff_eq.mpr hp.symm]
      · rw [List.map_cons, if_neg hp]
        show (match List.lookup c (p :: ps.map _) with
          | some v => v
          | none => Cell.null) = v
        rw [List.lookup_cons]
        have hbe : (c == p.1) = false := beq_false_of_ne (fun hh => hp hh.symm)
        rw [hbe]
        simp only [Bool.false_eq_true, if_false]
        apply ih
        have hlk : List.lookup c (p :: ps) = List.lookup c ps := by
          rw [List.lookup_cons, hbe]
        rw [hlk] at hs
        exact hs
  · rw [if_neg hs]
    unfold getCell
    have hnone : r.lookup c = none := by
      cases hlk : r.lookup c with
      | none => rfl
      | some v2 =>
        rw [hlk] at hs
        exact absurd rfl hs
    induction r with
    | nil =>
      show (match List.lookup c [(c, v)] with
        | some v => v
        | none => Cell.null) = v
      rw [List.lookup_cons, beq_iff_eq.mpr rfl]
    | cons p ps ih =>
      show (match List.lookup c ((p :: ps) ++ [(c, v)]) with
        | some v => v
        | none => Cell.null) = v
      rw [List.cons_append, List.lookup_cons]
      rw [List.lookup_cons] at hnone
      by_cases hb : c = p.1
      · rw [beq_iff_eq.mpr hb] at hnone
        simp at hnone
      · have hbe : (c == p.1) = false := beq_false_of_ne hb
        rw [hbe] at hnone ⊢
        simp only [Bool.false_eq_true, if_false] at hnone ⊢
        exact ih (by rw [hnone]; exact fun hh => Bool.noConfusion hh) hnone

theorem coaching_action_list_none (intake merged : DF)
    (h : current_week merged = none) :
    coaching_action_list intake merged =
      ({ cols := ["email"], rows := [] }, { cols := [], rows := [] }) := by
  rw [coaching_action_list, h]

theorem coaching_action_list_some (intake merged : DF) (wk : ℤ)
    (h : current_week merged = some wk) :
    coaching_action_list intake merged =
      (missingDF intake merged wk, atRiskDF merged wk) := by
  rw [coaching_action_list, h]

/-- C5: when no current week exists both outputs are empty; otherwise a
cell appears in the missing-checkin table exactly when it is a non-null
baseline identity that is not among the non-null identities of the
current-week rows — the plain set difference of the two identity sets. -/
theorem C5_missing_checkin_set (intake merged : DF)
    (hem : "email" ∈ merged.cols) (hei : "email" ∈ intake.cols) :
    (current_week merged = none →
      (coaching_action_list intake merged).1.rows = [] ∧
      (coaching_action_list intake merged).2.rows = []) ∧
    ∀ wk : ℤ, current_week merged = some wk →
      ∀ c : Cell,
        ([("email", c)] ∈ (coaching_action_list intake merged).1.rows ↔
          (c ∈ (intake.rows.map (fun r => getCell r "email")).filter
              (fun x => x ≠ Cell.null) ∧
           ¬ c ∈ ((thisWeekRows merged wk).map (fun r => getCell r "email")).filter
              (fun x => x ≠ Cell.null))) := by
  constructor
  · intro h
    rw [coaching_action_list_none intake merged h]
    exact ⟨rfl, rfl⟩
  · intro wk hw c
    rw [coaching_action_list_some intake merged wk hw, pairFst]
    show [("email", c)] ∈ (List.insertionSort (skRel cellStrKey)
      (((intakeEmails intake).filter
        (fun x => ¬ x ∈ submittedEmails merged wk)).dedup)).map
      (fun x => [("email", x)]) ↔ _
    rw [List.mem_map]
    constructor
    · rintro ⟨a, ha, heq⟩
      have hac : a = c := by
        have h5 : ("email", a) = ("email", c) := by
          injection heq
        injection h5
      subst hac
      have h2 := (List.mem_insertionSort _).mp ha
      rw [List.mem_dedup, List.mem_filter] at h2
      obtain ⟨h3, h4⟩ := h2
      rw [intakeEmails, if_pos hei] at h3
      refine ⟨h3, ?_⟩
      intro hmem
      apply of_decide_eq_true h4
      rw [submittedEmails, if_pos hem]
      exact hmem
    · rintro ⟨h3, h4⟩
      refine ⟨c, ?_, rfl⟩
      rw [List.mem_insertionSort, List.mem_dedup, List.mem_filter]
      refine ⟨?_, decide_eq_true ?_⟩
      · rw [intakeEmails, if_pos hei]
        exact h3
      · show ¬ c ∈ submittedEmails merged wk
        rw [submittedEmails, if_pos hem]
        exact h4

/-- Baseline identities a, b, c. -/
def iTabC5 : DF :=
  { cols := ["email"],
    rows := [[("email", Cell.str "a")], [("email", Cell.str "b")],
      [("email", Cell.str "c")]] }

/-- Current-week (2) submitters a and c; b last submitted in week 1. -/
def mTabC5 : DF :=
  { cols := ["email", "week_number"],
    rows := [
      [("email", Cell.str "a"), ("week_number", Cell.num 2)],
      [("email", Cell.str "c"), ("week_number", Cell.num 2)],
      [("email", Cell.str "b"), ("week_number", Cell.num 1)]] }

theorem C5_missing_checkin_set_witness :
    ([("email", Cell.str "b")] ∈ (coaching_action_list iTabC5 mTabC5).1.rows ↔
      (Cell.str "b" ∈ (iTabC5.rows.map (fun r => getCell r "email")).filter
          (fun x => x ≠ Cell.null) ∧
       ¬ Cell.str "b" ∈ ((thisWeekRows mTabC5 2).map (fun r => getCell r "email")).filter
          (fun x => x ≠ Cell.null))) ∧
    (coaching_action_list iTabC5 mTabC5).1.rows = [[("email", Cell.str "b")]] :=
  ⟨(C5_missing_checkin_set iTabC5 mTabC5 (by decide) (by decide)).2 2 (by decide)
    (Cell.str "b"), by decide⟩

/-- Spec 4.9, the at-risk predicate in the specification's words: the
adherence category textually equals "Very few days", or the stress value
is present, numeric and at least 8 while the sleep-quality value is
present, numeric and at most 4. -/
def specAtRisk (r : Row) : Prop :=
  pyStrip (cellToString (getCell r "nutrition_adherence_weekly")) = "Very few days" ∨
  ((∃ q : ℚ, getCell r "stress_weekly" = Cell.num q ∧ 8 ≤ q) ∧
   (∃ q : ℚ, getCell r "sleep_quality_weekly" = Cell.num q ∧ q ≤ 4))

theorem specAtRisk_iff (r : Row) :
    specAtRisk r ↔ (ruleAdherence r || ruleStressSleep r) = true := by
  rw [specAtRisk, ruleAdherence, ruleStressSleep, Bool.or_eq_true, decide_eq_true_eq,
    Bool.and_eq_true]
  apply or_congr Iff.rfl
  apply and_congr
  · cases hs : getCell r "stress_weekly" with
    | num q =>
      simp only [decide_eq_true_eq]
      constructor
      · rintro ⟨q2, hq2, hle⟩
        obtain rfl := Cell.num.inj hq2
        exact hle
      · intro h
        exact ⟨q, rfl, h⟩
    | null =>
      simp only [Bool.false_eq_true, iff_false]
      rintro ⟨q2, hq2, _⟩
      exact Cell.noConfusion hq2
    | str s =>
      simp only [Bool.false_eq_true, iff_false]
      rintro ⟨q2, hq2, _⟩
      exact Cell.noConfusion hq2
    | time t =>
      simp only [Bool.false_eq_true, iff_false]
      rintro ⟨q2, hq2, _⟩
      exact Cell.noConfusion hq2
    | bool b =>
      simp only [Bool.false_eq_true, iff_false]
      rintro ⟨q2, hq2, _⟩
      exact Cell.noConfusion hq2
  · cases hs : getCell r "sleep_quality_weekly" with
    | num q =>
      simp only [decide_eq_true_eq]
      constructor
      · rintro ⟨q2, hq2, hle⟩
        obtain rfl := Cell.num.inj hq2
        exact hle
      · intro h
        exact ⟨q, rfl, h⟩
    | null =>
      simp only [Bool.false_eq_true, iff_false]
      rintro ⟨q2, hq2, _⟩
      exact Cell.noConfusion hq2
    | str s =>
      simp only [Bool.false_eq_true, iff_false]
      rintro ⟨q2, hq2, _⟩
      exact Cell.noConfusion hq2
    | time t =>
      simp only [Bool.false_eq_true, iff_false]
      rintro ⟨q2, hq2, _⟩
      exact Cell.noConfusion hq2
    | bool b =>
      simp only [Bool.false_eq_true, iff_false]
      rintro ⟨q2, hq2, _⟩
      exact Cell.noConfusion hq2

instance specAtRisk.decidable (r : Row) : Decidable (specAtRisk r) :=
  decidable_of_iff _ (specAtRisk_iff r).symm

instance stressDescRel.total : IsTotal Row stressDescRel :=
  ⟨fun a b => le_total (stressKey b) (stressKey a)⟩

instance stressDescRel.trans : IsTrans Row stressDescRel :=
  ⟨fun _ _ _ h h2 => le_trans h2 h⟩

/-- C4: with a defined current week, a current-week row is placed in the
at-risk output (with its `risk_flag` set) precisely when its adherence
category textually equals "Very few days", or its stress value is present,
numeric and at least 8 while its sleep-quality value is present, numeric
and at most 4; and the output rows are sorted by stress descending
(missing stress last). -/
theorem C4_at_risk_rules (intake merged : DF) (wk : ℤ)
    (hcw : current_week merged = some wk)
    (hna : "nutrition_adherence_weekly" ∈ merged.cols)
    (hss : "stress_weekly" ∈ merged.cols ∧ "sleep_quality_weekly" ∈ merged.cols) :
    ((coaching_action_list intake merged).2.rows).Perm
      (((thisWeekRows merged wk).filter (fun r => decide (specAtRisk r))).map
        (fun r => setCell r "risk_flag" (Cell.bool true))) ∧
    ((coaching_action_list intake merged).2.rows).Pairwise
      (fun a b => stressKey b ≤ stressKey a) := by
  rw [coaching_action_list_some intake merged wk hcw, pairSnd]
  have hcols : "stress_weekly" ∈ atRiskCols merged := by
    rw [atRiskCols]
    by_cases hrf : "risk_flag" ∈ merged.cols
    · rw [if_pos hrf]
      exact hss.1
    · rw [if_neg hrf]
      exact List.mem_append_left _ hss.1
  have hflag : ∀ r : Row, rowRiskFlag merged r = (ruleAdherence r || ruleStressSleep r) := by
    intro r
    rw [rowRiskFlag, if_pos hna, if_pos hss]
  have hrows : (atRiskDF merged wk).rows =
      List.insertionSort stressDescRel (keptRiskRows merged wk) := by
    show (if "stress_weekly" ∈ atRiskCols merged then
        List.insertionSort stressDescRel (keptRiskRows merged wk)
      else keptRiskRows merged wk) = _
    rw [if_pos hcols]
  constructor
  · rw [hrows]
    refine (List.perm_insertionSort _ _).trans ?_
    have hfeq : (thisWeekRows merged wk).filter
        ((fun r => decide (getCell r "risk_flag" = Cell.bool true)) ∘
          (fun r => setCell r "risk_flag" (Cell.bool (rowRiskFlag merged r)))) =
        (thisWeekRows merged wk).filter (fun r => decide (specAtRisk r)) := by
      apply List.filter_congr
      intro r _
      show decide (getCell (setCell r "risk_flag"
        (Cell.bool (rowRiskFlag merged r))) "risk_flag" = Cell.bool true) =
        decide (specAtRisk r)
      rw [getCell_setCell_self, decide_eq_decide, hflag r]
      constructor
      · intro h
        exact (specAtRisk_iff r).mpr (Cell.bool.inj h)
      · intro h
        rw [(specAtRisk_iff r).mp h]
    rw [keptRiskRows, flaggedRows, List.filter_map, hfeq]
    have hmeq : ((thisWeekRows merged wk).filter (fun r => decide (specAtRisk r))).map
        (fun r => setCell r "risk_flag" (Cell.bool (rowRiskFlag merged r))) =
        ((thisWeekRows merged wk).filter (fun r => decide (specAtRisk r))).map
        (fun r => setCell r "risk_flag" (Cell.bool true)) := by
      apply List.map_congr_left
      intro r hr
      have hsr : specAtRisk r := of_decide_eq_true (List.mem_filter.mp hr).2
      rw [hflag r, (specAtRisk_iff r).mp hsr]
    rw [hmeq]
  · rw [hrows]
    exact List.sorted_insertionSort stressDescRel _

/-- Current week 2: stress 9 / sleep 3 flags rule B; stress 7 / sleep 3
does not; "Very few days" flags rule A regardless of stress. -/
def mTabC4 : DF :=
  { cols := ["email", "week_number", "nutrition_adherence_weekly",
      "stress_weekly", "sleep_quality_weekly"],
    rows := [
      [("email", Cell.str "a"), ("week_number", Cell.num 2),
        ("nutrition_adherence_weekly", Cell.str "Most days"),
        ("stress_weekly", Cell.num 9), ("sleep_quality_weekly", Cell.num 3)],
      [("email", Cell.str "c"), ("week_number", Cell.num 2),
        ("nutrition_adherence_weekly", Cell.str "Most days"),
        ("stress_weekly", Cell.num 7), ("sleep_quality_weekly", Cell.num 3)],
      [("email", Cell.str "b"), ("week_number", Cell.num 2),
        ("nutrition_adherence_weekly", Cell.str "Very few days"),
        ("stress_weekly", Cell.null), ("sleep_quality_weekly", Cell.null)]] }

theorem C4_at_risk_rules_witness :
    ((coaching_action_list iTabC5 mTabC4).2.rows).Perm
      (((thisWeekRows mTabC4 2).filter (fun r => decide (specAtRisk r))).map
        (fun r => setCell r "risk_flag" (Cell.bool true))) ∧
    ((coaching_action_list iTabC5 mTabC4).2.rows.map (fun r => getCell r "email")) =
      [Cell.str "a", Cell.str "b"] :=
  ⟨(C4_at_risk_rules iTabC5 mTabC4 2 (by decide) (by decide)
    (by decide)).1, by decide⟩

/-- C8: on an empty table or one lacking the week-number column,
`cohort_weekly_summary` returns a zero-row table with the full expected
column set; otherwise (over the merged schema) it drops null week numbers
and produces exactly one aggregate row — distinct-identity count and
null-ignoring means — per distinct week number, in ascending week order. -/
theorem C8_cohort_summary_shape (merged : DF) :
    ((merged.rows.isEmpty ∨ "week_number" ∉ merged.cols) →
      cohort_weekly_summary merged = Except.ok { cols := SUMMARY_COLS, rows := [] }) ∧
    (¬ (merged.rows.isEmpty ∨ "week_number" ∉ merged.cols) →
      (AGG_SOURCE_COLS.all (fun c => c ∈ merged.cols)) = true →
      cohort_weekly_summary merged = Except.ok (summaryTable merged) ∧
      (summaryTable merged).cols = SUMMARY_COLS ∧
      (summaryTable merged).rows = (summaryWeeks merged).map (fun w =>
        summaryRow ((eligRows merged).filter
          (fun r => decide (getCell r "week_number" = w))) w) ∧
      (summaryWeeks merged).Pairwise (skRel cellNumKey) ∧
      (summaryWeeks merged).Nodup ∧
      (∀ w : Cell, w ∈ summaryWeeks merged ↔
        w ∈ (eligRows merged).map (fun r => getCell r "week_number"))) := by
  constructor
  · intro h
    rw [cohort_weekly_summary, if_pos h]
  · intro h hagg
    refine ⟨?_, rfl, rfl, ?_, ?_, ?_⟩
    · rw [cohort_weekly_summary, if_neg h, if_pos hagg]
    · exact List.sorted_insertionSort _ _
    · rw [summaryWeeks]
      exact (List.perm_insertionSort _ _).nodup_iff.mpr (List.nodup_dedup _)
    · intro w
      rw [summaryWeeks, List.mem_insertionSort, List.mem_dedup]

/-- A two-week merged table exercising the aggregation branch. -/
def mTabC8 : DF :=
  { cols := ["email", "week_number", "bodyweight_lbs_weekly", "rhr_bpm_weekly",
      "energy_weekly", "adherence_score_weekly", "sleep_hours_numeric_weekly",
      "stress_weekly"],
    rows := [
      [("email", Cell.str "a"), ("week_number", Cell.num 2),
        ("bodyweight_lbs_weekly", Cell.num 195), ("rhr_bpm_weekly", Cell.num 60),
        ("energy_weekly", Cell.num 4), ("adherence_score_weekly", Cell.num 1),
        ("sleep_hours_numeric_weekly", Cell.null), ("stress_weekly", Cell.num 5)],
      [("email", Cell.str "b"), ("week_number", Cell.num 1),
        ("bodyweight_lbs_weekly", Cell.num 170), ("rhr_bpm_weekly", Cell.null),
        ("energy_weekly", Cell.num 3), ("adherence_score_weekly", Cell.num 0),
        ("sleep_hours_numeric_weekly", Cell.num (mkRat 13 2)),
        ("stress_weekly", Cell.num 7)],
      [("email", Cell.str "a"), ("week_number", Cell.null),
        ("bodyweight_lbs_weekly", Cell.num 999), ("rhr_bpm_weekly", Cell.null),
        ("energy_weekly", Cell.null), ("adherence_score_weekly", Cell.null),
        ("sleep_hours_numeric_weekly", Cell.null), ("stress_weekly", Cell.null)]] }

theorem C8_cohort_summary_shape_witness :
    (cohort_weekly_summary ({ cols := ["x"], rows := [] } : DF) =
      Except.ok { cols := SUMMARY_COLS, rows := [] }) ∧
    (cohort_weekly_summary mTabC8 = Except.ok (summaryTable mTabC8)) ∧
    ((summaryTable mTabC8).rows.map (fun r => getCell r "week_number")) =
      [Cell.num 1, Cell.num 2] ∧
    ((summaryTable mTabC8).rows.map (fun r => getCell r "n_participants")) =
      [Cell.num 1, Cell.num 1] ∧
    ((summaryTable mTabC8).rows.map (fun r => getCell r "bodyweight_mean")) =
      [Cell.num 170, Cell.num 195] :=
  ⟨(C8_cohort_summary_shape ({ cols := ["x"], rows := [] } : DF)).1 (by decide),
    ((C8_cohort_summary_shape mTabC8).2 (by decide) (by decide)).1,
    by decide, by decide, by decide⟩
